import Mathlib

/-!
Verification of the photodock media ingestion and derivation pipeline.

This file gives a shallow embedding of the pipeline's core routines:

* the JPEG GPS stripper (stripGPSFromJPEG / removeGPSFromExif), modelled on
  byte lists, where an out-of-bounds slice of the underlying buffer is
  modelled as the value none (a Go slice-bounds panic);
* the EXIF metadata extractor (ExifService.Extract and its two strategies),
  modelled over an environment that records the outcome of the external
  exiftool invocation, the readability of the file, and the outcome of the
  built-in goexif decode;
* the URL slug generator (sanitizeURLPath / ScannerService.generateURLPath),
  with the catalog-existence query modelled as a boolean predicate;
* the scanner's per-entry processing (ScannerService.processPhoto,
  ScannerService.ensureFolder, and the directory walk), with database rows
  as explicit lists and the expensive side operations recorded as an
  explicit effect trace;
* the placeholder generator (ThumbnailService.GeneratePlaceholder) together
  with a model of Go's base64.StdEncoding.DecodeString.

Machine integers are modelled as Nat; byte buffers are List Nat whose
elements are byte values.  All definitions are executable.
-/

/-! ### Byte-buffer primitives -/

/-- Byte at index i of a buffer (0 when out of range; all real accesses in
the modelled code are guarded, concrete inputs keep values below 256). -/
def byteAt (l : List Nat) (i : Nat) : Nat := l.getD i 0

/-- Big-endian 16-bit read, as binary.BigEndian.Uint16. -/
def readU16BE (l : List Nat) (i : Nat) : Nat := 256 * byteAt l i + byteAt l (i + 1)

/-- Little-endian 16-bit read, as binary.LittleEndian.Uint16. -/
def readU16LE (l : List Nat) (i : Nat) : Nat := byteAt l i + 256 * byteAt l (i + 1)

/-- 16-bit read for the byte order selected by the TIFF header
(true = little endian). -/
def readU16 (le : Bool) (l : List Nat) (i : Nat) : Nat :=
  if le then readU16LE l i else readU16BE l i

/-- Big-endian 32-bit read, as binary.BigEndian.Uint32. -/
def readU32BE (l : List Nat) (i : Nat) : Nat :=
  16777216 * byteAt l i + 65536 * byteAt l (i + 1) + 256 * byteAt l (i + 2) + byteAt l (i + 3)

/-- Little-endian 32-bit read, as binary.LittleEndian.Uint32. -/
def readU32LE (l : List Nat) (i : Nat) : Nat :=
  byteAt l i + 256 * byteAt l (i + 1) + 65536 * byteAt l (i + 2) + 16777216 * byteAt l (i + 3)

/-- 32-bit read for the selected byte order (true = little endian). -/
def readU32 (le : Bool) (l : List Nat) (i : Nat) : Nat :=
  if le then readU32LE l i else readU32BE l i

/-- Overwrite the 12 bytes starting at off with zeros (the in-place loop
for j := entryOffset; j < entryOffset+12; j++ { exifResult[j] = 0 }).
Only invoked under the guard off + 12 <= length. -/
def zero12 (l : List Nat) (off : Nat) : List Nat :=
  l.take off ++ List.replicate 12 0 ++ l.drop (off + 12)

/-! ### GPS stripper: removeGPSFromExif -/

/-- Byte-order mark of a TIFF block: "II" selects little endian (some true),
"MM" big endian (some false), anything else is rejected. -/
def tiffByteOrder (d : List Nat) : Option Bool :=
  if byteAt d 0 = 0x49 ∧ byteAt d 1 = 0x49 then some true
  else if byteAt d 0 = 0x4D ∧ byteAt d 1 = 0x4D then some false
  else none

/-- The IFD0 entry loop of removeGPSFromExif: walk numEntries directory
entries of 12 bytes each starting at off; an entry whose tag reads 0x8825
has its 12 bytes zeroed in place; an entry that would overrun the buffer
stops the walk.  Returns the mutated buffer and the modified flag. -/
def gpsZeroLoop (le : Bool) : List Nat → Nat → Nat → List Nat × Bool
  | buf, _, 0 => (buf, false)
  | buf, off, n + 1 =>
    if buf.length < off + 12 then (buf, false)
    else if readU16 le buf off = 0x8825 then
      ((gpsZeroLoop le (zero12 buf off) (off + 12) n).1, true)
    else gpsZeroLoop le buf (off + 12) n

/-- Pure reader companion of gpsZeroLoop: the offsets (relative to the TIFF
block) of the directory entries whose tag is the GPS IFD pointer 0x8825,
reading the unmutated buffer. -/
def gpsOffsets (le : Bool) : List Nat → Nat → Nat → List Nat
  | _, _, 0 => []
  | buf, off, n + 1 =>
    if buf.length < off + 12 then []
    else if readU16 le buf off = 0x8825 then off :: gpsOffsets le buf (off + 12) n
    else gpsOffsets le buf (off + 12) n

/-- Model of removeGPSFromExif: the segment includes the 2-byte APP1 marker,
the 2-byte declared length and the 6-byte "Exif\x00\x00" signature, so the
TIFF block starts at byte 10.  Early exits return the segment unchanged with
modified = false; otherwise the IFD0 entries are walked and matching GPS
pointer entries zeroed. -/
def removeGPSFromExif (segment : List Nat) : List Nat × Bool :=
  if segment.length < 12 then (segment, false)
  else
    let exifData := segment.drop 10
    if exifData.length < 8 then (segment, false)
    else
      match tiffByteOrder exifData with
      | none => (segment, false)
      | some le =>
        let ifdOffset := readU32 le exifData 4
        if exifData.length ≤ ifdOffset then (segment, false)
        else if exifData.length < ifdOffset + 2 then (segment, false)
        else
          let numEntries := readU16 le exifData ifdOffset
          let res := gpsZeroLoop le exifData (ifdOffset + 2) numEntries
          (segment.take 10 ++ res.1, res.2)

/-- The TIFF-relative offsets of the GPS pointer entries a given APP1 segment
makes removeGPSFromExif zero, mirroring its guard structure. -/
def segGpsOffsets (segment : List Nat) : List Nat :=
  if segment.length < 12 then []
  else
    let exifData := segment.drop 10
    if exifData.length < 8 then []
    else
      match tiffByteOrder exifData with
      | none => []
      | some le =>
        let ifdOffset := readU32 le exifData 4
        if exifData.length ≤ ifdOffset then []
        else if exifData.length < ifdOffset + 2 then []
        else gpsOffsets le exifData (ifdOffset + 2) (readU16 le exifData ifdOffset)

/-- The IFD0 offset a segment's TIFF header declares (0 when the byte order
mark is invalid); used to state the standard-TIFF hypothesis 8 <= offset. -/
def segIfdOffset (segment : List Nat) : Nat :=
  match tiffByteOrder (segment.drop 10) with
  | some le => readU32 le (segment.drop 10) 4
  | none => 0

/-! ### GPS stripper: the JPEG marker walk of stripGPSFromJPEG -/

/-- One pass of the marker walk of stripGPSFromJPEG over the bytes after the
SOI marker (rest = data[pos:]), with a structural fuel argument (any fuel at
least rest.length gives the walk's value; each marker segment consumes at
least two bytes).  Returns the bytes appended to the output plus the
modified flag, or none when the walk slices data[pos : pos+segLen] beyond
the buffer (a Go slice-bounds panic on adversarial declared lengths). -/
def jpegWalkF : Nat → List Nat → Option (List Nat × Bool)
  | 0, _ => some ([], false)
  | f + 1, rest =>
    if rest.length < 2 then some ([], false)
    else if byteAt rest 0 ≠ 0xFF then some (rest, false)
    else if byteAt rest 1 = 0xD9 then some (rest, false)
    else if byteAt rest 1 = 0xDA then some (rest, false)
    else if rest.length < 4 then some ([], false)
    else
      let segLen := readU16BE rest 2 + 2
      if rest.length < segLen then none
      else if byteAt rest 1 = 0xE1 ∧ 10 < rest.length ∧ byteAt rest 4 = 0x45 ∧
          byteAt rest 5 = 0x78 ∧ byteAt rest 6 = 0x69 ∧ byteAt rest 7 = 0x66 ∧
          byteAt rest 8 = 0 ∧ byteAt rest 9 = 0 then
        match jpegWalkF f (rest.drop segLen) with
        | none => none
        | some (out, m) =>
          let r := removeGPSFromExif (rest.take segLen)
          some (r.1 ++ out, r.2 || m)
      else
        match jpegWalkF f (rest.drop segLen) with
        | none => none
        | some (out, m) => some (rest.take segLen ++ out, m)

/-- The marker walk at its canonical fuel. -/
def jpegWalkAux (rest : List Nat) : Option (List Nat × Bool) :=
  jpegWalkF rest.length rest

/-- Model of stripGPSFromJPEG on the in-memory file bytes: inputs that do not
start with the SOI marker are returned unchanged with modified = false (the
function returns nil without writing); otherwise the marker walk runs and the
output is FF D8 followed by the walked bytes.  none models a panic. -/
def stripGPSFromJPEG (data : List Nat) : Option (List Nat × Bool) :=
  if data.length < 2 ∨ byteAt data 0 ≠ 0xFF ∨ byteAt data 1 ≠ 0xD8 then some (data, false)
  else
    match jpegWalkAux (data.drop 2) with
    | none => none
    | some (out, m) => some (0xFF :: 0xD8 :: out, m)

/-- A leading piece of the post-SOI stream that consists of complete,
non-APP1 marker segments: each starts FF marker (marker none of D9, DA, E1)
with its declared length fully inside the buffer.  The walk copies such a
prefix verbatim. -/
def plainSegsF : Nat → List Nat → Bool
  | _, [] => true
  | 0, _ :: _ => false
  | f + 1, a :: l' =>
    let l := a :: l'
    if l.length < 4 then false
    else if byteAt l 0 ≠ 0xFF then false
    else if byteAt l 1 = 0xD9 ∨ byteAt l 1 = 0xDA ∨ byteAt l 1 = 0xE1 then false
    else if l.length < readU16BE l 2 + 2 then false
    else plainSegsF f (l.drop (readU16BE l 2 + 2))

/-- plainSegsF at its canonical fuel. -/
def plainSegs (l : List Nat) : Bool := plainSegsF l.length l

/-- A stream remainder on which the walk terminates by copying everything
verbatim: empty, or at least two bytes starting with a non-marker byte, an
EOI marker, or an SOS marker. -/
def tailTerminal (t : List Nat) : Bool :=
  t.isEmpty ||
    (decide (2 ≤ t.length) &&
      (!(byteAt t 0 == 0xFF) || byteAt t 1 == 0xD9 || byteAt t 1 == 0xDA))

/-- Well-formed EXIF APP1 segment header: marker FF E1, declared length
matching the segment's actual size, and the "Exif\x00\x00" signature. -/
def exifApp1Header (seg : List Nat) : Bool :=
  decide (12 ≤ seg.length) && (byteAt seg 0 == 0xFF) && (byteAt seg 1 == 0xE1) &&
    (seg.length == readU16BE seg 2 + 2) && (byteAt seg 4 == 0x45) &&
    (byteAt seg 5 == 0x78) && (byteAt seg 6 == 0x69) && (byteAt seg 7 == 0x66) &&
    (byteAt seg 8 == 0) && (byteAt seg 9 == 0)

/-! ### Decimal rendering (fmt.Sprintf "%d" and "%.1f") -/

/-- Decimal digit character. -/
def digitChr (n : Nat) : Char := Char.ofNat (48 + n)

/-- Decimal digits of a natural number with a structural fuel argument (any
fuel above n gives the digits). -/
def natStrF : Nat → Nat → List Char
  | 0, _ => []
  | f + 1, n => if n < 10 then [digitChr n] else natStrF f (n / 10) ++ [digitChr (n % 10)]

/-- Decimal digits of a natural number, the rendering fmt's %d produces. -/
def natStrL (n : Nat) : List Char := natStrF (n + 1) n

/-- Decimal rendering of a natural number as a string. -/
def natStr (n : Nat) : String := (natStrL n).asString

/-- One-decimal rendering of a non-negative rational (the digits of Go's
%.1f; ties rounded up in the model). -/
def fmtDec1 (q : ℚ) : String :=
  let t := (⌊q * 10 + 1 / 2⌋).toNat
  natStr (t / 10) ++ "." ++ natStr (t % 10)

/-- Model of fmt.Sprintf "%.1f": a leading minus sign for negative values,
then the one-decimal digits of the absolute value. -/
def fmt1 (q : ℚ) : String :=
  if q < 0 then "-" ++ fmtDec1 (-q) else fmtDec1 q

/-! ### EXIF metadata extraction (ExifService) -/

/-- The flash decode shared by both extraction strategies: bit 0 is
fired/not fired and bits 3-4 an optional mode, joined with ", "
(val & 1 is val % 2, (val >> 3) & 3 is val / 8 % 4). -/
def decodeFlash (val : Nat) : String :=
  let fired := val % 2 = 1
  let mode := (val / 8) % 4
  let parts : List String :=
    [if fired then "Fired" else "Did not fire"] ++
      (if mode = 1 then ["compulsory"]
       else if mode = 2 then ["suppressed"]
       else if mode = 3 then ["auto"] else [])
  String.intercalate ", " parts

/-- The MetadataRecord fields this development models (all fields optional,
zero value = absent). -/
structure ExifInfo where
  cameraMake : String := ""
  exposureComp : String := ""
  flash : String := ""
deriving DecidableEq

/-- The zero-value record &models.ExifInfo{}. -/
def emptyExifInfo : ExifInfo := {}

/-- Fields of one parsed exiftool JSON object that this development models;
none = key absent (getFloat / getInt / getString then default to 0 / ""). -/
structure ToolData where
  make : Option String := none
  exposureComp : Option ℚ := none
  flash : Option Nat := none
  dateTimeOriginal : Option Nat := none
deriving DecidableEq

/-- Fields of a successful goexif decode that this development models;
none = tag absent or unreadable. -/
structure GoexifData where
  make : Option String := none
  exposureBias : Option (Int × Int) := none
  flash : Option Nat := none
  dateTime : Option Nat := none
deriving DecidableEq

/-- Environment of one Extract call: whether exiftool was found at startup,
the outcome of the exiftool subprocess (none = exec failure, unparsable
output or empty result array), whether os.Open succeeds on the file, and
the outcome of the built-in goexif decode. -/
structure ExtractEnv where
  hasExiftool : Bool
  toolOutput : Option ToolData
  fileReadable : Bool
  goexifDecode : Option GoexifData

/-- The exposure-compensation formatting of the exiftool strategy: a
non-zero value gets an explicit sign, the value zero (or an absent key,
which getFloat also reports as 0) renders as "0 EV". -/
def richExposureComp (ec : ℚ) : String :=
  if ec ≠ 0 then (if 0 ≤ ec then "+" ++ fmt1 ec ++ " EV" else fmt1 ec ++ " EV")
  else "0 EV"

/-- Record construction of extractWithExiftool (modelled fields). -/
def buildExiftoolInfo (d : ToolData) : ExifInfo :=
  { cameraMake := d.make.getD ""
    exposureComp := richExposureComp (d.exposureComp.getD 0)
    flash := decodeFlash (d.flash.getD 0) }

/-- The exposure-compensation formatting of the goexif strategy for a
present ExposureBiasValue rational with non-zero denominator. -/
def goexifExposureComp (num den : Int) : String :=
  let val : ℚ := (num : ℚ) / (den : ℚ)
  if 0 ≤ val then "+" ++ fmt1 val ++ " EV" else fmt1 val ++ " EV"

/-- Record construction of extractWithGoexif (modelled fields); fields of
absent tags stay at their zero value. -/
def buildGoexifInfo (d : GoexifData) : ExifInfo :=
  { cameraMake := d.make.getD ""
    exposureComp :=
      match d.exposureBias with
      | some (num, den) => if den ≠ 0 then goexifExposureComp num den else ""
      | none => ""
    flash :=
      match d.flash with
      | some v => decodeFlash v
      | none => "" }

/-- Model of ExifService.extractWithGoexif: an os.Open failure returns the
error; a goexif decode failure returns the empty record, zero capture time
and nil error; otherwise the decoded record. -/
def ExifService.extractWithGoexif (env : ExtractEnv) : Except Unit (ExifInfo × Nat) :=
  if !env.fileReadable then Except.error ()
  else
    match env.goexifDecode with
    | none => Except.ok (emptyExifInfo, 0)
    | some d => Except.ok (buildGoexifInfo d, d.dateTime.getD 0)

/-- Model of ExifService.extractWithExiftool: subprocess failure or
malformed output falls back to the goexif strategy for the file. -/
def ExifService.extractWithExiftool (env : ExtractEnv) : Except Unit (ExifInfo × Nat) :=
  match env.toolOutput with
  | none => ExifService.extractWithGoexif env
  | some d => Except.ok (buildExiftoolInfo d, d.dateTimeOriginal.getD 0)

/-- Model of ExifService.Extract: the strategy chosen at startup. -/
def ExifService.Extract (env : ExtractEnv) : Except Unit (ExifInfo × Nat) :=
  if env.hasExiftool then ExifService.extractWithExiftool env
  else ExifService.extractWithGoexif env

/-! ### URL slug generation (sanitizeURLPath / generateURLPath) -/

/-- ASCII lower-casing of one character (strings.ToLower on the inputs
considered here). -/
def goLowerChar (c : Char) : Char :=
  if 'A' ≤ c ∧ c ≤ 'Z' then Char.ofNat (c.toNat + 32) else c

/-- The strings.Map function of sanitizeURLPath: keep [a-z0-9/._-], map a
space to a hyphen, drop everything else. -/
def sanitizeChar (c : Char) : Option Char :=
  if ('a' ≤ c ∧ c ≤ 'z') ∨ ('0' ≤ c ∧ c ≤ '9') ∨ c = '/' ∨ c = '.' ∨ c = '-' ∨ c = '_'
  then some c
  else if c = ' ' then some '-' else none

/-- The regexp replacement of runs of hyphens by a single hyphen. -/
def collapseDashes : List Char → List Char
  | [] => []
  | [c] => [c]
  | a :: b :: rest =>
    if a = '-' ∧ b = '-' then collapseDashes (b :: rest)
    else a :: collapseDashes (b :: rest)

/-- strings.Trim(s, "-"): drop leading and trailing hyphens. -/
def trimDashes (l : List Char) : List Char :=
  ((l.dropWhile (fun c => c == '-')).reverse.dropWhile (fun c => c == '-')).reverse

/-- Model of sanitizeURLPath: lower-case, keep the allowed characters and
turn spaces into hyphens, collapse hyphen runs, trim hyphens overall, then
trim hyphens on every slash-separated segment. -/
def sanitizeURLPath (path : String) : String :=
  let cs := (path.toList.map goLowerChar).filterMap sanitizeChar
  let cs := trimDashes (collapseDashes cs)
  let parts := (cs.splitOn '/').map trimDashes
  (List.intercalate ['/'] parts).asString

/-- Model of filepath.Ext: scan backwards to the last dot of the final
slash-separated element; first argument is the reversed remaining input,
second the characters already passed (in order). -/
def extSearch : List Char → List Char → List Char
  | [], _ => []
  | c :: rest, acc =>
    if c = '/' then []
    else if c = '.' then c :: acc
    else extSearch rest (c :: acc)

/-- filepath.Ext as a string function. -/
def filepathExt (s : String) : String := (extSearch s.toList.reverse []).asString

/-- strings.TrimSuffix. -/
def trimSuffix (s suf : String) : String :=
  if suf.toList.isSuffixOf s.toList
  then ((s.toList.take (s.toList.length - suf.toList.length)).asString)
  else s

/-- The collision loop of generateURLPath (for i := 1; i < 10000; i++),
written with the remaining iteration count as a structural argument: with r
iterations left starting at index i, return the first candidate base-i ext
the catalog does not contain, else fall back to the unix-nanosecond
suffix. -/
def slugLoop (ex : String → Bool) (base ext : String) (now : Nat) : Nat → Nat → String
  | _, 0 => base ++ "-" ++ natStr now ++ ext
  | i, r + 1 =>
    let candidate := base ++ "-" ++ natStr i ++ ext
    if ex candidate then slugLoop ex base ext now (i + 1) r else candidate

/-- Model of ScannerService.generateURLPath, with the catalog url_path
existence query modelled by the predicate ex and time.Now().UnixNano() by
now; the collision loop runs the source's indices 1 through 9999. -/
def ScannerService.generateURLPath (ex : String → Bool) (now : Nat) (filePath : String) : String :=
  let urlPath := sanitizeURLPath filePath
  if !ex urlPath then urlPath
  else
    let ext := filepathExt urlPath
    let base := trimSuffix urlPath ext
    slugLoop ex base ext now 1 9999

/-- The i-th url path assigned for a fixed sanitized slug: the slug itself
first, then the hyphen-number suffixed candidates. -/
def slugCand (slug : String) (i : Nat) : String :=
  if i = 0 then slug
  else trimSuffix slug (filepathExt slug) ++ "-" ++ natStr i ++ filepathExt slug

/-- Sequential ingestion of a list of raw paths: each path receives the slug
generateURLPath produces against the already-assigned slugs, which is then
recorded.  Models photos ingested one at a time against the catalog. -/
def ingestAux (now : Nat) : List String → List String → List String
  | acc, [] => acc
  | acc, p :: ps =>
    ingestAux now (acc ++ [ScannerService.generateURLPath (fun s => acc.contains s) now p]) ps

/-- Slugs assigned by ingesting the given raw paths in order into an empty
catalog. -/
def ingestAll (now : Nat) (paths : List String) : List String := ingestAux now [] paths

/-! ### Scanner (ScannerService.scanDir / processPhoto / ensureFolder) -/

/-- strings.HasPrefix(name, ".") of the scanner's hidden-entry check. -/
def isHiddenName (name : String) : Bool :=
  match name.toList with
  | '.' :: _ => true
  | _ => false

/-- Extension whitelist of the scanner. -/
def isImageFile (name : String) : Bool :=
  let e := ((filepathExt name).toList.map goLowerChar).asString
  e == ".jpg" || e == ".jpeg" || e == ".png"

/-- filepath.Join of a relative directory and an entry name. -/
def joinPath (rel name : String) : String :=
  if rel = "" then name else rel ++ "/" ++ name

/-- A folder catalog row. -/
structure FolderRow where
  id : Nat
  parent : Option Nat
  name : String
  path : String
deriving DecidableEq

/-- A photo catalog row (the fields this development models). -/
structure PhotoRow where
  path : String
  urlPath : String
deriving DecidableEq

/-- The catalog state the scanner reads and writes. -/
structure ScanDB where
  folders : List FolderRow
  photos : List PhotoRow
  nextFolderId : Nat
deriving DecidableEq

/-- The expensive side operations of per-file processing, recorded as an
explicit trace. -/
inductive ScanEff where
  | stripGPS (path : String)
  | extractMeta (path : String)
  | genThumb (path : String) (size : String)
  | insertPhoto (path : String)
  | insertFolder (path : String)
deriving DecidableEq

/-- Filesystem environment of a scan: whether os.Stat succeeds on a path,
and the clock for slug fallbacks. -/
structure ScanEnv where
  statOk : String → Bool
  now : Nat

/-- Model of ScannerService.ensureFolder: an existing path's identity is
reused untouched; otherwise the folder row is inserted. -/
def ScannerService.ensureFolder (db : ScanDB) (path name : String) (parent : Option Nat) :
    ScanDB × Nat × List ScanEff :=
  match db.folders.find? (fun f => f.path == path) with
  | some f => (db, f.id, [])
  | none =>
    let id := db.nextFolderId
    ({ db with
        folders := db.folders ++ [{ id := id, parent := parent, name := name, path := path }]
        nextFolderId := id + 1 },
      id, [ScanEff.insertFolder path])

/-- Model of ScannerService.processPhoto: an existing path returns at once
with no effects; otherwise (when stat succeeds) GPS stripping, metadata
extraction, the slug computation, the row insert and the three thumbnail
generations run. -/
def ScannerService.processPhoto (env : ScanEnv) (db : ScanDB) (relPath : String)
    (folderId : Option Nat) : ScanDB × List ScanEff :=
  if (db.photos.map PhotoRow.path).contains relPath then (db, [])
  else if !env.statOk relPath then (db, [])
  else
    let urlPath :=
      ScannerService.generateURLPath (fun s => (db.photos.map PhotoRow.urlPath).contains s)
        env.now relPath
    ({ db with photos := db.photos ++ [{ path := relPath, urlPath := urlPath }] },
      [ScanEff.stripGPS relPath, ScanEff.extractMeta relPath, ScanEff.insertPhoto relPath,
        ScanEff.genThumb relPath "small", ScanEff.genThumb relPath "medium",
        ScanEff.genThumb relPath "large"])

/-- A directory tree as the scanner sees it. -/
inductive FTree where
  | file (name : String)
  | dir (name : String) (children : List FTree)

mutual
/-- Model of one entry of scanDir: hidden names are skipped, directories are
ensured and recursed into, image files go to processPhoto. -/
def scanEntry (env : ScanEnv) (db : ScanDB) (rel : String) (parent : Option Nat) :
    FTree → ScanDB × List ScanEff
  | .file name =>
    if isHiddenName name then (db, [])
    else if isImageFile name then ScannerService.processPhoto env db (joinPath rel name) parent
    else (db, [])
  | .dir name children =>
    if isHiddenName name then (db, [])
    else
      let r1 := ScannerService.ensureFolder db (joinPath rel name) name parent
      let r2 := scanEntries env r1.1 (joinPath rel name) (some r1.2.1) children
      (r2.1, r1.2.2 ++ r2.2)

/-- Model of the scanDir entry loop, threading the catalog state. -/
def scanEntries (env : ScanEnv) (db : ScanDB) (rel : String) (parent : Option Nat) :
    List FTree → ScanDB × List ScanEff
  | [] => (db, [])
  | t :: ts =>
    let r1 := scanEntry env db rel parent t
    let r2 := scanEntries env r1.1 rel parent ts
    (r2.1, r1.2 ++ r2.2)
end

mutual
/-- The photo paths a scan of the tree would consider (non-hidden image
files, recursively, excluding hidden directories). -/
def treePhotoPaths (rel : String) : FTree → List String
  | .file name =>
    if isHiddenName name then []
    else if isImageFile name then [joinPath rel name] else []
  | .dir name children =>
    if isHiddenName name then [] else treePhotoPathsList (joinPath rel name) children

/-- treePhotoPaths over a list of entries. -/
def treePhotoPathsList (rel : String) : List FTree → List String
  | [] => []
  | t :: ts => treePhotoPaths rel t ++ treePhotoPathsList rel ts
end

mutual
/-- The directory paths a scan of the tree would ensure (non-hidden,
recursively). -/
def treeDirPaths (rel : String) : FTree → List String
  | .file _ => []
  | .dir name children =>
    if isHiddenName name then []
    else joinPath rel name :: treeDirPathsList (joinPath rel name) children

/-- treeDirPaths over a list of entries. -/
def treeDirPathsList (rel : String) : List FTree → List String
  | [] => []
  | t :: ts => treeDirPaths rel t ++ treeDirPathsList rel ts
end

/-! ### Placeholder generation (ThumbnailService.GeneratePlaceholder) -/

/-- The value of one character of the standard base64 alphabet. -/
def b64Val (c : Char) : Option Nat :=
  if 'A' ≤ c ∧ c ≤ 'Z' then some (c.toNat - 65)
  else if 'a' ≤ c ∧ c ≤ 'z' then some (c.toNat - 97 + 26)
  else if '0' ≤ c ∧ c ≤ '9' then some (c.toNat - 48 + 52)
  else if c = '+' then some 62
  else if c = '/' then some 63
  else none

/-- Decode of 4-character base64 groups with standard padding; none on any
malformed input (wrong length, bad character, misplaced padding). -/
def b64Groups : List Char → Option (List Nat)
  | [] => some []
  | c1 :: c2 :: c3 :: c4 :: rest =>
    match b64Val c1, b64Val c2 with
    | some v1, some v2 =>
      if c4 = '=' then
        if !rest.isEmpty then none
        else if c3 = '=' then some [v1 * 4 + v2 / 16]
        else
          match b64Val c3 with
          | some v3 => some [v1 * 4 + v2 / 16, v2 % 16 * 16 + v3 / 4]
          | none => none
      else
        match b64Val c3, b64Val c4 with
        | some v3, some v4 =>
          match b64Groups rest with
          | some bs => some ([v1 * 4 + v2 / 16, v2 % 16 * 16 + v3 / 4, v3 % 4 * 64 + v4] ++ bs)
          | none => none
        | _, _ => none
    | _, _ => none
  | _ => none

/-- Model of base64.StdEncoding.DecodeString (which skips CR and LF). -/
def base64Decode (s : String) : Option (List Nat) :=
  b64Groups (s.toList.filter (fun c => !(c == '\x0d') && !(c == '\x0a')))

/-- The image GeneratePlaceholder returns: either a flat single-colour
bitmap of the requested size, or the external linear upscale of a decoded
4x4 RGB grid (row-major triplets). -/
inductive PlaceholderResult where
  | flat (width height r g b a : Nat)
  | upscaled (grid : List (Nat × Nat × Nat)) (width height : Nat)
deriving DecidableEq

/-- The 16 RGB triplets at indices (y*4+x)*3 of the decoded bytes. -/
def tinyGrid (data : List Nat) : List (Nat × Nat × Nat) :=
  (List.range 16).map (fun i => (byteAt data (3 * i), byteAt data (3 * i + 1), byteAt data (3 * i + 2)))

/-- Model of ThumbnailService.GeneratePlaceholder: a decode failure or fewer
than 48 decoded bytes yields the flat mid-gray RGBA(128,128,128,255) bitmap
of the requested size and no error; otherwise the 4x4 grid is decoded and
upscaled. -/
def ThumbnailService.GeneratePlaceholder (blurhash : String) (width height : Nat) :
    PlaceholderResult :=
  match base64Decode blurhash with
  | none => PlaceholderResult.flat width height 128 128 128 255
  | some data =>
    if data.length < 48 then PlaceholderResult.flat width height 128 128 128 255
    else PlaceholderResult.upscaled (tinyGrid data) width height

/-! ### Bounds-instrumented variant of removeGPSFromExif

Every byte access of the original routine is replaced by a checked access
that fails (none) when the index is outside the buffer, so a proof that the
checked variant always succeeds shows the routine performs only in-bounds
accesses. -/

/-- Checked 16-bit read: none when either byte is out of bounds. -/
def readU16Checked (le : Bool) (l : List Nat) (i : Nat) : Option Nat :=
  match l[i]?, l[i + 1]? with
  | some a, some b => some (if le then a + 256 * b else 256 * a + b)
  | _, _ => none

/-- Checked 32-bit read: none when any byte is out of bounds. -/
def readU32Checked (le : Bool) (l : List Nat) (i : Nat) : Option Nat :=
  match l[i]?, l[i + 1]?, l[i + 2]?, l[i + 3]? with
  | some a, some b, some c, some d =>
    some (if le then a + 256 * b + 65536 * c + 16777216 * d
          else 16777216 * a + 65536 * b + 256 * c + d)
  | _, _, _, _ => none

/-- Checked 12-byte zeroing write: none when it would write out of bounds. -/
def zero12Checked (l : List Nat) (off : Nat) : Option (List Nat) :=
  if off + 12 ≤ l.length then some (zero12 l off) else none

/-- Checked byte-order mark read. -/
def tiffByteOrderChecked (d : List Nat) : Option (Option Bool) :=
  match d[0]?, d[1]? with
  | some a, some b =>
    some (if a = 0x49 ∧ b = 0x49 then some true
          else if a = 0x4D ∧ b = 0x4D then some false
          else none)
  | _, _ => none

/-- The IFD0 entry loop with checked reads and writes. -/
def gpsZeroLoopChecked (le : Bool) : List Nat → Nat → Nat → Option (List Nat × Bool)
  | buf, _, 0 => some (buf, false)
  | buf, off, n + 1 =>
    if buf.length < off + 12 then some (buf, false)
    else
      match readU16Checked le buf off with
      | none => none
      | some tag =>
        if tag = 0x8825 then
          match zero12Checked buf off with
          | none => none
          | some buf2 =>
            match gpsZeroLoopChecked le buf2 (off + 12) n with
            | none => none
            | some r => some (r.1, true)
        else gpsZeroLoopChecked le buf (off + 12) n

/-- removeGPSFromExif with every buffer access bounds-checked; none models an
out-of-bounds access. -/
def removeGPSChecked (segment : List Nat) : Option (List Nat × Bool) :=
  if segment.length < 12 then some (segment, false)
  else
    let exifData := segment.drop 10
    if exifData.length < 8 then some (segment, false)
    else
      match tiffByteOrderChecked exifData with
      | none => none
      | some none => some (segment, false)
      | some (some le) =>
        match readU32Checked le exifData 4 with
        | none => none
        | some ifdOffset =>
          if exifData.length ≤ ifdOffset then some (segment, false)
          else if exifData.length < ifdOffset + 2 then some (segment, false)
          else
            match readU16Checked le exifData ifdOffset with
            | none => none
            | some numEntries =>
              match gpsZeroLoopChecked le exifData (ifdOffset + 2) numEntries with
              | none => none
              | some res => some (segment.take 10 ++ res.1, res.2)

/-! ### Concrete streams and catalog states used in the closing examples -/

/-- A plain (non-APP1) JFIF marker segment used in the examples. -/
def preW : List Nat := [0xFF, 0xE0, 0x00, 0x04, 0xAA, 0xBB]

/-- An EXIF APP1 segment whose IFD0 second entry is a GPS pointer (tag
0x8825): little-endian TIFF header at offset 10, IFD0 at TIFF offset 8 with
two 12-byte entries. -/
def segW : List Nat := [0xFF, 0xE1, 0x00, 0x2A, 0x45, 0x78, 0x69, 0x66, 0x00, 0x00,
  0x49, 0x49, 0x2A, 0x00, 0x08, 0x00, 0x00, 0x00, 0x02, 0x00,
  0x0F, 0x01, 0x02, 0x00, 0x04, 0x00, 0x00, 0x00, 0x01, 0x02, 0x03, 0x04,
  0x25, 0x88, 0x04, 0x00, 0x01, 0x00, 0x00, 0x00, 0x26, 0x00, 0x00, 0x00]

/-- A terminal EOI tail. -/
def tailW : List Nat := [0xFF, 0xD9]

/-- segW with the 12 bytes of its GPS pointer entry zeroed. -/
def segWZ : List Nat := segW.take 32 ++ List.replicate 12 0

/-- The stripped output of the example JPEG stream. -/
def outW : List Nat := 0xFF :: 0xD8 :: (preW ++ (segWZ ++ tailW))

/-- A catalog that already holds the folder and the photo of the example
directory tree. -/
def dbW : ScanDB :=
  { folders := [{ id := 1, parent := none, name := "d", path := "d" }]
    photos := [{ path := "d/x.jpg", urlPath := "d/x.jpg" }]
    nextFolderId := 2 }

/-! ### Lemmas: byte-buffer primitives -/

theorem byteAt_append_left {a : List Nat} (b : List Nat) {i : Nat} (h : i < a.length) :
    byteAt (a ++ b) i = byteAt a i := by
  simp [byteAt, List.getD_eq_getElem?_getD, List.getElem?_append, h]

theorem byteAt_append_right {a : List Nat} (b : List Nat) {i : Nat} (h : a.length ≤ i) :
    byteAt (a ++ b) i = byteAt b (i - a.length) := by
  simp [byteAt, List.getD_eq_getElem?_getD, List.getElem?_append_right h]

theorem byteAt_drop (l : List Nat) (k i : Nat) : byteAt (l.drop k) i = byteAt l (k + i) := by
  simp [byteAt, List.getD_eq_getElem?_getD, List.getElem?_drop]

theorem byteAt_take {l : List Nat} {k i : Nat} (h : i < k) : byteAt (l.take k) i = byteAt l i := by
  simp [byteAt, List.getD_eq_getElem?_getD, List.getElem?_take, h]

theorem byteAt_cons_zero (x : Nat) (l : List Nat) : byteAt (x :: l) 0 = x := rfl

theorem byteAt_cons_succ (x : Nat) (l : List Nat) (i : Nat) :
    byteAt (x :: l) (i + 1) = byteAt l i := rfl

theorem readU16_congr (le : Bool) {l1 l2 : List Nat} {i j : Nat}
    (h0 : byteAt l1 i = byteAt l2 j) (h1 : byteAt l1 (i + 1) = byteAt l2 (j + 1)) :
    readU16 le l1 i = readU16 le l2 j := by
  cases le <;> simp [readU16, readU16BE, readU16LE, h0, h1]

theorem readU32_congr (le : Bool) {l1 l2 : List Nat} {i j : Nat}
    (h0 : byteAt l1 i = byteAt l2 j) (h1 : byteAt l1 (i + 1) = byteAt l2 (j + 1))
    (h2 : byteAt l1 (i + 2) = byteAt l2 (j + 2)) (h3 : byteAt l1 (i + 3) = byteAt l2 (j + 3)) :
    readU32 le l1 i = readU32 le l2 j := by
  cases le <;> simp [readU32, readU32BE, readU32LE, h0, h1, h2, h3]

theorem readU16BE_append_left {a : List Nat} (b : List Nat) {i : Nat} (h : i + 1 < a.length) :
    readU16BE (a ++ b) i = readU16BE a i := by
  rw [readU16BE, readU16BE, byteAt_append_left b (by omega), byteAt_append_left b h]

theorem readU16_zero (le : Bool) {l : List Nat} {i : Nat}
    (h0 : byteAt l i = 0) (h1 : byteAt l (i + 1) = 0) : readU16 le l i = 0 := by
  cases le <;> simp [readU16, readU16BE, readU16LE, h0, h1]

theorem zero12_length {l : List Nat} {off : Nat} (h : off + 12 ≤ l.length) :
    (zero12 l off).length = l.length := by
  simp [zero12]
  omega

theorem byteAt_zero12_of_lt {l : List Nat} {off j : Nat} (h : j < off) (hoff : off ≤ l.length) :
    byteAt (zero12 l off) j = byteAt l j := by
  rw [zero12, List.append_assoc, byteAt_append_left _ (by simp; omega), byteAt_take h]

theorem byteAt_replicate_zero (n i : Nat) : byteAt (List.replicate n 0) i = 0 := by
  rw [byteAt, List.getD_eq_getElem?_getD, List.getElem?_replicate]
  by_cases h : i < n <;> simp [h]

theorem byteAt_zero12_of_mem {l : List Nat} {off j : Nat} (h1 : off ≤ j) (h2 : j < off + 12)
    (hoff : off ≤ l.length) : byteAt (zero12 l off) j = 0 := by
  rw [zero12, List.append_assoc, byteAt_append_right _ (by simp; omega)]
  have htk : (List.take off l).length = off := by simp; omega
  rw [htk, byteAt_append_left _ (by simp; omega), byteAt_replicate_zero]

theorem byteAt_zero12_of_ge {l : List Nat} {off j : Nat} (h : off + 12 ≤ j)
    (hoff : off ≤ l.length) : byteAt (zero12 l off) j = byteAt l j := by
  rw [zero12, List.append_assoc, byteAt_append_right _ (by simp; omega)]
  have htk : (List.take off l).length = off := by simp; omega
  rw [htk, byteAt_append_right _ (by simp; omega)]
  rw [List.length_replicate, byteAt_drop]
  congr 1
  omega

/-! ### Lemmas: the IFD0 entry loop -/

theorem mem_gpsOffsets (le : Bool) (n : Nat) : ∀ buf off o, o ∈ gpsOffsets le buf off n ↔
    ∃ i, i < n ∧ o = off + 12 * i ∧ off + 12 * i + 12 ≤ buf.length ∧
      readU16 le buf (off + 12 * i) = 0x8825 := by
  induction n with
  | zero => intro buf off o; simp [gpsOffsets]
  | succ n ih =>
    intro buf off o
    rw [gpsOffsets]
    split
    · rename_i hlen
      simp only [List.not_mem_nil, false_iff]
      rintro ⟨i, _, _, hb, _⟩
      omega
    · rename_i hlen
      split
      · rename_i hm
        simp only [List.mem_cons, ih]
        constructor
        · rintro (ho | ⟨i, hi, hoi, hb, hr⟩)
          · refine ⟨0, by omega, by omega, by omega, ?_⟩
            have h12 : off + 12 * 0 = off := by omega
            rw [h12]; exact hm
          · refine ⟨i + 1, by omega, by omega, by omega, ?_⟩
            have h12 : off + 12 * (i + 1) = off + 12 + 12 * i := by omega
            rw [h12]; exact hr
        · rintro ⟨i, hi, hoi, hb, hr⟩
          match i with
          | 0 => left; omega
          | Nat.succ i' =>
            right
            refine ⟨i', by omega, by omega, by omega, ?_⟩
            have h12 : off + 12 + 12 * i' = off + 12 * (i' + 1) := by omega
            rw [h12]; exact hr
      · rename_i hm
        rw [ih]
        constructor
        · rintro ⟨i, hi, rfl, hb, hr⟩
          refine ⟨i + 1, by omega, by omega, by omega, ?_⟩
          have h12 : off + 12 * (i + 1) = off + 12 + 12 * i := by omega
          rw [h12]; exact hr
        · rintro ⟨i, hi, rfl, hb, hr⟩
          match i with
          | 0 =>
            exfalso
            apply hm
            have h12 : off + 12 * 0 = off := by omega
            rw [h12] at hr; exact hr
          | Nat.succ i' =>
            refine ⟨i', by omega, by omega, by omega, ?_⟩
            have h12 : off + 12 + 12 * i' = off + 12 * (i' + 1) := by omega
            rw [h12]; exact hr

theorem gpsOffsets_bounds (le : Bool) (n : Nat) {buf : List Nat} {off o : Nat}
    (h : o ∈ gpsOffsets le buf off n) : off ≤ o ∧ o + 12 ≤ buf.length := by
  rcases (mem_gpsOffsets le n buf off o).mp h with ⟨i, _, rfl, hb, _⟩
  omega

theorem gpsOffsets_zero12 (le : Bool) (n : Nat) : ∀ buf off off',
    off + 12 ≤ off' → off + 12 ≤ buf.length →
    gpsOffsets le (zero12 buf off) off' n = gpsOffsets le buf off' n := by
  induction n with
  | zero => intro buf off off' _ _; rfl
  | succ n ih =>
    intro buf off off' hle hlen
    have hl : (zero12 buf off).length = buf.length := zero12_length hlen
    have hb0 : byteAt (zero12 buf off) off' = byteAt buf off' :=
      byteAt_zero12_of_ge (by omega) (by omega)
    have hb1 : byteAt (zero12 buf off) (off' + 1) = byteAt buf (off' + 1) :=
      byteAt_zero12_of_ge (by omega) (by omega)
    have hr : readU16 le (zero12 buf off) off' = readU16 le buf off' :=
      readU16_congr le hb0 hb1
    rw [gpsOffsets, gpsOffsets, hl, hr]
    split
    · rfl
    · rw [ih buf off (off' + 12) (by omega) hlen]

theorem gpsZeroLoop_length (le : Bool) (n : Nat) : ∀ buf off,
    (gpsZeroLoop le buf off n).1.length = buf.length := by
  induction n with
  | zero => intro buf off; rfl
  | succ n ih =>
    intro buf off
    rw [gpsZeroLoop]
    split
    · rfl
    · split
      · rename_i hlen _
        have h12 : off + 12 ≤ buf.length := by omega
        simp only [ih (zero12 buf off) (off + 12)]
        exact zero12_length h12
      · exact ih buf (off + 12)

theorem gpsZeroLoop_byteAt_lt (le : Bool) (n : Nat) : ∀ buf off j, j < off →
    byteAt (gpsZeroLoop le buf off n).1 j = byteAt buf j := by
  induction n with
  | zero => intro buf off j _; rfl
  | succ n ih =>
    intro buf off j hj
    rw [gpsZeroLoop]
    split
    · rfl
    · rename_i hlen
      split
      · simp only [ih (zero12 buf off) (off + 12) j (by omega)]
        exact byteAt_zero12_of_lt hj (by omega)
      · exact ih buf (off + 12) j (by omega)

theorem gpsZeroLoop_byteAt_outside (le : Bool) (n : Nat) : ∀ buf off j,
    (∀ o ∈ gpsOffsets le buf off n, ¬(o ≤ j ∧ j < o + 12)) →
    byteAt (gpsZeroLoop le buf off n).1 j = byteAt buf j := by
  induction n with
  | zero => intro buf off j _; rfl
  | succ n ih =>
    intro buf off j hout
    rw [gpsZeroLoop]
    split
    · rfl
    · rename_i hlen
      split
      · rename_i hm
        have hmem : (off : Nat) ∈ gpsOffsets le buf off (n + 1) := by
          rw [gpsOffsets]
          simp only [if_neg hlen, if_pos hm, List.mem_cons, true_or]
        have hoff := hout off hmem
        have hrest : ∀ o ∈ gpsOffsets le (zero12 buf off) (off + 12) n, ¬(o ≤ j ∧ j < o + 12) := by
          intro o ho
          rw [gpsOffsets_zero12 le n buf off (off + 12) (by omega) (by omega)] at ho
          apply hout
          rw [gpsOffsets]
          simp only [if_neg hlen, if_pos hm, List.mem_cons]
          exact Or.inr ho
        simp only [ih (zero12 buf off) (off + 12) j hrest]
        rcases Nat.lt_or_ge j off with hlt | hge
        · exact byteAt_zero12_of_lt hlt (by omega)
        · exact byteAt_zero12_of_ge (by omega) (by omega)
      · rename_i hm
        apply ih buf (off + 12) j
        intro o ho
        apply hout
        rw [gpsOffsets]
        simp only [if_neg hlen, if_neg hm]
        exact ho

theorem gpsZeroLoop_byteAt_zeroed (le : Bool) (n : Nat) : ∀ buf off j o,
    o ∈ gpsOffsets le buf off n → o ≤ j → j < o + 12 →
    byteAt (gpsZeroLoop le buf off n).1 j = 0 := by
  induction n with
  | zero => intro buf off j o ho _ _; simp [gpsOffsets] at ho
  | succ n ih =>
    intro buf off j o ho h1 h2
    rw [gpsOffsets] at ho
    rw [gpsZeroLoop]
    split
    · rename_i hlen
      rw [if_pos hlen] at ho
      simp at ho
    · rename_i hlen
      rw [if_neg hlen] at ho
      split
      · rename_i hm
        rw [if_pos hm, List.mem_cons] at ho
        rcases ho with ho | ho
        · rw [gpsZeroLoop_byteAt_lt le n (zero12 buf off) (off + 12) j (by omega)]
          exact byteAt_zero12_of_mem (by omega) (by omega) (by omega)
        · apply ih (zero12 buf off) (off + 12) j o _ h1 h2
          rw [gpsOffsets_zero12 le n buf off (off + 12) (by omega) (by omega)]
          exact ho
      · rename_i hm
        rw [if_neg hm] at ho
        exact ih buf (off + 12) j o ho h1 h2

theorem gpsZeroLoop_snd (le : Bool) (n : Nat) : ∀ buf off,
    (gpsZeroLoop le buf off n).2 = !(gpsOffsets le buf off n).isEmpty := by
  induction n with
  | zero => intro buf off; rfl
  | succ n ih =>
    intro buf off
    rw [gpsZeroLoop, gpsOffsets]
    split
    · rfl
    · split
      · simp
      · simp only [ih buf (off + 12)]

theorem gpsZeroLoop_of_offsets_nil (le : Bool) (n : Nat) : ∀ buf off,
    gpsOffsets le buf off n = [] → gpsZeroLoop le buf off n = (buf, false) := by
  induction n with
  | zero => intro buf off _; rfl
  | succ n ih =>
    intro buf off h
    rw [gpsOffsets] at h
    rw [gpsZeroLoop]
    split
    · rfl
    · rename_i hlen
      rw [if_neg hlen] at h
      split
      · rename_i hm
        rw [if_pos hm] at h
        simp at h
      · rename_i hm
        rw [if_neg hm] at h
        exact ih buf (off + 12) h

/-! ### Lemmas: removeGPSFromExif at the segment level -/

theorem removeGPS_spec (seg : List Nat) :
    ((removeGPSFromExif seg).1).length = seg.length ∧
    (removeGPSFromExif seg).2 = !(segGpsOffsets seg).isEmpty ∧
    (∀ j, (∀ o ∈ segGpsOffsets seg, ¬(10 + o ≤ j ∧ j < 10 + o + 12)) →
      byteAt (removeGPSFromExif seg).1 j = byteAt seg j) ∧
    (∀ j o, o ∈ segGpsOffsets seg → 10 + o ≤ j → j < 10 + o + 12 →
      byteAt (removeGPSFromExif seg).1 j = 0) ∧
    (∀ o ∈ segGpsOffsets seg, segIfdOffset seg + 2 ≤ o ∧ o + 12 ≤ seg.length - 10) ∧
    (segGpsOffsets seg = [] → removeGPSFromExif seg = (seg, false)) := by
  by_cases h12 : seg.length < 12
  · simp only [removeGPSFromExif, segGpsOffsets, if_pos h12]
    simp
  · by_cases h8 : (seg.drop 10).length < 8
    · simp only [removeGPSFromExif, segGpsOffsets, if_neg h12, if_pos h8]
      simp
    · rcases hbo : tiffByteOrder (seg.drop 10) with _ | le
      · simp only [removeGPSFromExif, segGpsOffsets, if_neg h12, if_neg h8, hbo]
        simp
      · by_cases hk : (seg.drop 10).length ≤ readU32 le (seg.drop 10) 4
        · simp only [removeGPSFromExif, segGpsOffsets, if_neg h12, if_neg h8, hbo, if_pos hk]
          simp
        · by_cases hk2 : (seg.drop 10).length < readU32 le (seg.drop 10) 4 + 2
          · simp only [removeGPSFromExif, segGpsOffsets, if_neg h12, if_neg h8, hbo,
              if_neg hk, if_pos hk2]
            simp
          · simp only [removeGPSFromExif, segGpsOffsets, if_neg h12, if_neg h8, hbo,
              if_neg hk, if_neg hk2]
            have hLlen : (seg.drop 10).length = seg.length - 10 := by simp
            have htk : (seg.take 10).length = 10 := by simp; omega
            refine ⟨?_, ?_, ?_, ?_, ?_, ?_⟩
            · simp only [List.length_append, htk,
                gpsZeroLoop_length le _ (seg.drop 10) (readU32 le (seg.drop 10) 4 + 2)]
              omega
            · exact gpsZeroLoop_snd le _ (seg.drop 10) _
            · intro j hout
              rcases Nat.lt_or_ge j 10 with hj | hj
              · rw [byteAt_append_left _ (by omega), byteAt_take hj]
              · rw [byteAt_append_right _ (by omega), htk]
                rw [gpsZeroLoop_byteAt_outside le _ (seg.drop 10) _ (j - 10) ?_]
                · rw [byteAt_drop]
                  congr 1
                  omega
                · intro o ho
                  have := hout o ho
                  omega
            · intro j o ho hj1 hj2
              rw [byteAt_append_right _ (by omega), htk]
              exact gpsZeroLoop_byteAt_zeroed le _ (seg.drop 10) _ (j - 10) o ho
                (by omega) (by omega)
            · intro o ho
              have hb := gpsOffsets_bounds le _ ho
              have hseg : segIfdOffset seg = readU32 le (seg.drop 10) 4 := by
                simp [segIfdOffset, hbo]
              rw [hseg]
              omega
            · intro hnil
              rw [gpsZeroLoop_of_offsets_nil le _ (seg.drop 10) _ hnil]
              simp only [List.take_append_drop]

theorem mem_segGpsOffsets (seg : List Nat) (o : Nat) :
    o ∈ segGpsOffsets seg ↔
      ∃ le, tiffByteOrder (seg.drop 10) = some le ∧ 12 ≤ seg.length ∧
        8 ≤ seg.length - 10 ∧
        readU32 le (seg.drop 10) 4 + 2 ≤ seg.length - 10 ∧
        ∃ i, i < readU16 le (seg.drop 10) (readU32 le (seg.drop 10) 4) ∧
          o = readU32 le (seg.drop 10) 4 + 2 + 12 * i ∧ o + 12 ≤ seg.length - 10 ∧
          readU16 le (seg.drop 10) o = 0x8825 := by
  have hLlen : (seg.drop 10).length = seg.length - 10 := by simp
  by_cases h12 : seg.length < 12
  · simp only [segGpsOffsets, if_pos h12]
    simp only [List.not_mem_nil, false_iff]
    rintro ⟨le, _, h, _⟩
    omega
  · by_cases h8 : (seg.drop 10).length < 8
    · simp only [segGpsOffsets, if_neg h12, if_pos h8]
      simp only [List.not_mem_nil, false_iff]
      rintro ⟨le, _, _, h, _⟩
      omega
    · rcases hbo : tiffByteOrder (seg.drop 10) with _ | le
      · simp only [segGpsOffsets, if_neg h12, if_neg h8, hbo]
        simp only [List.not_mem_nil, false_iff]
        rintro ⟨le, hle, _⟩
        exact Option.noConfusion hle
      · by_cases hk : (seg.drop 10).length ≤ readU32 le (seg.drop 10) 4
        · simp only [segGpsOffsets, if_neg h12, if_neg h8, hbo, if_pos hk]
          simp only [List.not_mem_nil, false_iff]
          rintro ⟨le', hle, _, _, h, _⟩
          cases hle
          omega
        · by_cases hk2 : (seg.drop 10).length < readU32 le (seg.drop 10) 4 + 2
          · simp only [segGpsOffsets, if_neg h12, if_neg h8, hbo, if_neg hk, if_pos hk2]
            simp only [List.not_mem_nil, false_iff]
            rintro ⟨le', hle, _, _, h, _⟩
            cases hle
            omega
          · simp only [segGpsOffsets, if_neg h12, if_neg h8, hbo, if_neg hk, if_neg hk2]
            rw [mem_gpsOffsets]
            constructor
            · rintro ⟨i, hi, ho, hb, hr⟩
              refine ⟨le, rfl, by omega, by omega, by omega, i, hi, by omega, by omega, ?_⟩
              rw [ho]
              exact hr
            · rintro ⟨le', hle, _, _, _, i, hi, ho, hb, hr⟩
              cases hle
              refine ⟨i, hi, by omega, by omega, ?_⟩
              rw [ho] at hr
              exact hr

/-! ### Lemmas: a second application of removeGPSFromExif is a no-op -/

theorem removeGPS_byteAt_low (seg : List Nat) (h8 : 8 ≤ segIfdOffset seg) {j : Nat}
    (hj : j < 20) : byteAt (removeGPSFromExif seg).1 j = byteAt seg j := by
  have spec := removeGPS_spec seg
  apply spec.2.2.1 j
  intro o ho
  have hlb := (spec.2.2.2.2.1 o ho).1
  omega

theorem removeGPS_idem (seg : List Nat) (h8 : 8 ≤ segIfdOffset seg) :
    removeGPSFromExif ((removeGPSFromExif seg).1) = ((removeGPSFromExif seg).1, false) := by
  have spec := removeGPS_spec seg
  have hnil : segGpsOffsets ((removeGPSFromExif seg).1) = [] := by
    rw [List.eq_nil_iff_forall_not_mem]
    intro o ho
    rw [mem_segGpsOffsets] at ho
    obtain ⟨le, hle, h12, h8', hk2, i, hi, hoeq, hob, hr⟩ := ho
    have hlen : ((removeGPSFromExif seg).1).length = seg.length := spec.1
    have hlow : ∀ j, j < 20 → byteAt (removeGPSFromExif seg).1 j = byteAt seg j :=
      fun j hj => removeGPS_byteAt_low seg h8 hj
    have hb0 : byteAt ((removeGPSFromExif seg).1.drop 10) 0 = byteAt (seg.drop 10) 0 := by
      rw [byteAt_drop, byteAt_drop]; exact hlow 10 (by omega)
    have hb1 : byteAt ((removeGPSFromExif seg).1.drop 10) 1 = byteAt (seg.drop 10) 1 := by
      rw [byteAt_drop, byteAt_drop]; exact hlow 11 (by omega)
    have hboeq : tiffByteOrder ((removeGPSFromExif seg).1.drop 10) =
        tiffByteOrder (seg.drop 10) := by
      unfold tiffByteOrder; rw [hb0, hb1]
    rw [hboeq] at hle
    have hb4 : byteAt ((removeGPSFromExif seg).1.drop 10) 4 = byteAt (seg.drop 10) 4 := by
      rw [byteAt_drop, byteAt_drop]; exact hlow 14 (by omega)
    have hb5 : byteAt ((removeGPSFromExif seg).1.drop 10) (4 + 1) = byteAt (seg.drop 10) (4 + 1) := by
      rw [byteAt_drop, byteAt_drop]; exact hlow 15 (by omega)
    have hb6 : byteAt ((removeGPSFromExif seg).1.drop 10) (4 + 2) = byteAt (seg.drop 10) (4 + 2) := by
      rw [byteAt_drop, byteAt_drop]; exact hlow 16 (by omega)
    have hb7 : byteAt ((removeGPSFromExif seg).1.drop 10) (4 + 3) = byteAt (seg.drop 10) (4 + 3) := by
      rw [byteAt_drop, byteAt_drop]; exact hlow 17 (by omega)
    have hifd : readU32 le ((removeGPSFromExif seg).1.drop 10) 4 =
        readU32 le (seg.drop 10) 4 := readU32_congr le hb4 hb5 hb6 hb7
    have hks : segIfdOffset seg = readU32 le (seg.drop 10) 4 := by
      simp [segIfdOffset, hle]
    -- bytes strictly below the first directory entry are untouched
    have houtlow : ∀ j, j < 10 + readU32 le (seg.drop 10) 4 + 2 →
        byteAt (removeGPSFromExif seg).1 j = byteAt seg j := by
      intro j hj
      apply spec.2.2.1 j
      intro o' ho'
      have hlb := (spec.2.2.2.2.1 o' ho').1
      omega
    have hnum : readU16 le ((removeGPSFromExif seg).1.drop 10)
        (readU32 le ((removeGPSFromExif seg).1.drop 10) 4) =
        readU16 le (seg.drop 10) (readU32 le (seg.drop 10) 4) := by
      rw [hifd]
      apply readU16_congr le
      · rw [byteAt_drop, byteAt_drop]
        exact houtlow _ (by omega)
      · rw [byteAt_drop, byteAt_drop]
        exact houtlow _ (by omega)
    rw [hifd] at hoeq
    -- the tag this second-pass entry reads
    by_cases hmem : o ∈ segGpsOffsets seg
    · -- a zeroed entry: its tag bytes are zero now
      have hz0 : byteAt (removeGPSFromExif seg).1 (10 + o) = 0 :=
        spec.2.2.2.1 (10 + o) o hmem (by omega) (by omega)
      have hz1 : byteAt (removeGPSFromExif seg).1 (10 + o + 1) = 0 :=
        spec.2.2.2.1 (10 + o + 1) o hmem (by omega) (by omega)
      have : readU16 le ((removeGPSFromExif seg).1.drop 10) o = 0 := by
        apply readU16_zero
        · rw [byteAt_drop]; exact hz0
        · rw [byteAt_drop]
          have h1 : 10 + (o + 1) = 10 + o + 1 := by omega
          rw [h1]; exact hz1
      omega
    · -- an entry that did not match: its tag bytes are unchanged, so it
      -- would already have been a member of the first-pass offset list
      have htag0 : byteAt (removeGPSFromExif seg).1 (10 + o) = byteAt seg (10 + o) := by
        apply spec.2.2.1
        intro o' ho'
        rcases (mem_segGpsOffsets seg o').mp ho' with ⟨le2, hle2, _, _, _, i', _, hoeq', _, _⟩
        rw [hle] at hle2
        cases hle2
        intro hcon
        apply hmem
        have : o = o' := by omega
        rw [this]; exact ho'
      have htag1 : byteAt (removeGPSFromExif seg).1 (10 + o + 1) = byteAt seg (10 + o + 1) := by
        apply spec.2.2.1
        intro o' ho'
        rcases (mem_segGpsOffsets seg o').mp ho' with ⟨le2, hle2, _, _, _, i', _, hoeq', _, _⟩
        rw [hle] at hle2
        cases hle2
        intro hcon
        apply hmem
        have : o = o' := by omega
        rw [this]; exact ho'
      have hread : readU16 le ((removeGPSFromExif seg).1.drop 10) o =
          readU16 le (seg.drop 10) o := by
        apply readU16_congr le
        · rw [byteAt_drop, byteAt_drop]; exact htag0
        · rw [byteAt_drop, byteAt_drop]
          have h1 : 10 + (o + 1) = 10 + o + 1 := by omega
          rw [h1]; exact htag1
      apply hmem
      rw [mem_segGpsOffsets]
      refine ⟨le, hle, by omega, by omega, by omega, i, ?_, hoeq, by omega, ?_⟩
      · rw [← hnum]; exact hi
      · rw [← hread, hr]
  exact (removeGPS_spec ((removeGPSFromExif seg).1)).2.2.2.2.2 hnil

/-! ### Lemmas: the JPEG marker walk -/

theorem plainSegsF_congr (f1 : Nat) : ∀ f2 l, l.length ≤ f1 → l.length ≤ f2 →
    plainSegsF f1 l = plainSegsF f2 l := by
  induction f1 with
  | zero =>
    intro f2 l h1 _
    have hl : l = [] := List.eq_nil_of_length_eq_zero (by omega)
    subst hl
    cases f2 <;> rfl
  | succ f1 ih =>
    intro f2 l h1 h2
    rcases l with _ | ⟨a, l'⟩
    · cases f2 <;> rfl
    · cases f2 with
      | zero => simp at h2
      | succ f2 =>
        simp only [List.length_cons] at h1 h2
        simp only [plainSegsF]
        have hrec := ih f2 ((a :: l').drop (readU16BE (a :: l') 2 + 2))
          (by simp only [List.length_drop, List.length_cons]; omega)
          (by simp only [List.length_drop, List.length_cons]; omega)
        rw [hrec]

theorem plainSegs_cons_eq (a : Nat) (l' : List Nat) :
    plainSegs (a :: l') =
      (if (a :: l').length < 4 then false
       else if byteAt (a :: l') 0 ≠ 0xFF then false
       else if byteAt (a :: l') 1 = 0xD9 ∨ byteAt (a :: l') 1 = 0xDA ∨ byteAt (a :: l') 1 = 0xE1
         then false
       else if (a :: l').length < readU16BE (a :: l') 2 + 2 then false
       else plainSegs ((a :: l').drop (readU16BE (a :: l') 2 + 2))) := by
  show plainSegsF (a :: l').length (a :: l') = _
  have hlen : (a :: l').length = l'.length + 1 := by simp
  rw [hlen]
  simp only [plainSegsF]
  have hrec := plainSegsF_congr l'.length (((a :: l').drop (readU16BE (a :: l') 2 + 2)).length)
    ((a :: l').drop (readU16BE (a :: l') 2 + 2))
    (by simp only [List.length_drop, List.length_cons]; omega) (by omega)
  rw [hrec]
  rfl

theorem jpegWalkF_congr (f1 : Nat) : ∀ f2 rest, rest.length ≤ f1 → rest.length ≤ f2 →
    jpegWalkF f1 rest = jpegWalkF f2 rest := by
  induction f1 with
  | zero =>
    intro f2 rest h1 _
    have hl : rest = [] := List.eq_nil_of_length_eq_zero (by omega)
    subst hl
    cases f2 with
    | zero => rfl
    | succ f2 => simp [jpegWalkF]
  | succ f1 ih =>
    intro f2 rest h1 h2
    cases f2 with
    | zero =>
      have hl : rest = [] := List.eq_nil_of_length_eq_zero (by omega)
      subst hl
      simp [jpegWalkF]
    | succ f2 =>
      simp only [jpegWalkF]
      have hrec := ih f2 (rest.drop (readU16BE rest 2 + 2))
        (by simp only [List.length_drop]; omega) (by simp only [List.length_drop]; omega)
      rw [hrec]

theorem jpegWalkAux_eq (rest : List Nat) :
    jpegWalkAux rest =
      if rest.length < 2 then some ([], false)
      else if byteAt rest 0 ≠ 0xFF then some (rest, false)
      else if byteAt rest 1 = 0xD9 then some (rest, false)
      else if byteAt rest 1 = 0xDA then some (rest, false)
      else if rest.length < 4 then some ([], false)
      else if rest.length < readU16BE rest 2 + 2 then none
      else if byteAt rest 1 = 0xE1 ∧ 10 < rest.length ∧ byteAt rest 4 = 0x45 ∧
          byteAt rest 5 = 0x78 ∧ byteAt rest 6 = 0x69 ∧ byteAt rest 7 = 0x66 ∧
          byteAt rest 8 = 0 ∧ byteAt rest 9 = 0 then
        match jpegWalkAux (rest.drop (readU16BE rest 2 + 2)) with
        | none => none
        | some (out, m) =>
          some ((removeGPSFromExif (rest.take (readU16BE rest 2 + 2))).1 ++ out,
            (removeGPSFromExif (rest.take (readU16BE rest 2 + 2))).2 || m)
      else
        match jpegWalkAux (rest.drop (readU16BE rest 2 + 2)) with
        | none => none
        | some (out, m) => some (rest.take (readU16BE rest 2 + 2) ++ out, m) := by
  rcases rest with _ | ⟨a, l'⟩
  · simp [jpegWalkAux, jpegWalkF]
  · show jpegWalkF (a :: l').length (a :: l') = _
    have hlen : (a :: l').length = l'.length + 1 := by simp
    rw [hlen]
    simp only [jpegWalkF]
    have hrec := jpegWalkF_congr l'.length
      (((a :: l').drop (readU16BE (a :: l') 2 + 2)).length)
      ((a :: l').drop (readU16BE (a :: l') 2 + 2))
      (by simp only [List.length_drop, List.length_cons]; omega) (by omega)
    rw [hrec]
    rfl

theorem jpegWalkAux_terminal {t : List Nat} (h : tailTerminal t = true) :
    jpegWalkAux t = some (t, false) := by
  rw [jpegWalkAux_eq]
  rcases t with _ | ⟨a, t'⟩
  · simp
  · simp only [tailTerminal, List.isEmpty_cons, Bool.false_or, Bool.and_eq_true,
      decide_eq_true_eq, Bool.or_eq_true, Bool.not_eq_true', beq_eq_false_iff_ne, ne_eq,
      beq_iff_eq] at h
    obtain ⟨hlen, hcase⟩ := h
    rw [if_neg (by omega)]
    by_cases hf : byteAt (a :: t') 0 = 0xFF
    · rw [if_neg (by simp [hf])]
      have h19 : byteAt (a :: t') 1 = 0xD9 ∨ byteAt (a :: t') 1 = 0xDA := by tauto
      rcases h19 with h1 | h1
      · rw [if_pos h1]
      · rw [if_neg (by omega), if_pos h1]
    · rw [if_pos hf]

theorem jpegWalkAux_plain_lead (n : Nat) : ∀ p, p.length ≤ n → plainSegs p = true →
    ∀ rest, jpegWalkAux (p ++ rest) =
      (jpegWalkAux rest).map (fun q => (p ++ q.1, q.2)) := by
  induction n with
  | zero =>
    intro p hpl _ rest
    have hp : p = [] := List.eq_nil_of_length_eq_zero (by omega)
    subst hp
    rcases hw : jpegWalkAux rest with _ | ⟨out, m⟩ <;> simp [hw]
  | succ n ih =>
    intro p hpl hp rest
    rcases p with _ | ⟨a, p'⟩
    · rcases hw : jpegWalkAux rest with _ | ⟨out, m⟩ <;> simp [hw]
    · rw [plainSegs_cons_eq] at hp
      by_cases h4 : (a :: p').length < 4
      · rw [if_pos h4] at hp; simp at hp
      · rw [if_neg h4] at hp
        by_cases hff : byteAt (a :: p') 0 ≠ 0xFF
        · rw [if_pos hff] at hp; simp at hp
        · rw [if_neg hff] at hp
          by_cases hmk : byteAt (a :: p') 1 = 0xD9 ∨ byteAt (a :: p') 1 = 0xDA ∨
              byteAt (a :: p') 1 = 0xE1
          · rw [if_pos hmk] at hp; simp at hp
          · rw [if_neg hmk] at hp
            by_cases hsl : (a :: p').length < readU16BE (a :: p') 2 + 2
            · rw [if_pos hsl] at hp; simp at hp
            · rw [if_neg hsl] at hp
              -- hp : plainSegs of the remainder
              push_neg at hff
              have hb0 : byteAt ((a :: p') ++ rest) 0 = byteAt (a :: p') 0 :=
                byteAt_append_left _ (by omega)
              have hb1 : byteAt ((a :: p') ++ rest) 1 = byteAt (a :: p') 1 :=
                byteAt_append_left _ (by omega)
              have hb2 : byteAt ((a :: p') ++ rest) 2 = byteAt (a :: p') 2 :=
                byteAt_append_left _ (by omega)
              have hb3 : byteAt ((a :: p') ++ rest) 3 = byteAt (a :: p') 3 :=
                byteAt_append_left _ (by omega)
              have hr16 : readU16BE ((a :: p') ++ rest) 2 = readU16BE (a :: p') 2 := by
                rw [readU16BE, readU16BE, hb2, hb3]
              have hlapp : ((a :: p') ++ rest).length = (a :: p').length + rest.length := by
                simp
                omega
              rw [jpegWalkAux_eq]
              rw [if_neg (by omega), hb0, hb1, hr16]
              rw [if_neg (by simp [hff]), if_neg (by tauto), if_neg (by tauto),
                if_neg (by omega), if_neg (by omega)]
              rw [if_neg (by tauto)]
              have hdrop : ((a :: p') ++ rest).drop (readU16BE (a :: p') 2 + 2) =
                  ((a :: p').drop (readU16BE (a :: p') 2 + 2)) ++ rest :=
                List.drop_append_of_le_length (by omega)
              have htake : ((a :: p') ++ rest).take (readU16BE (a :: p') 2 + 2) =
                  (a :: p').take (readU16BE (a :: p') 2 + 2) :=
                List.take_append_of_le_length (by omega)
              rw [hdrop, htake]
              have hihlen : ((a :: p').drop (readU16BE (a :: p') 2 + 2)).length ≤ n := by
                simp only [List.length_drop, List.length_cons]
                simp only [List.length_cons] at hpl
                omega
              rw [ih _ hihlen hp rest]
              rcases jpegWalkAux rest with _ | ⟨out, m⟩
              · rfl
              · simp only [Option.map_some']
                have hassoc : (a :: p').take (readU16BE (a :: p') 2 + 2) ++
                    ((a :: p').drop (readU16BE (a :: p') 2 + 2) ++ out) = (a :: p') ++ out := by
                  rw [← List.append_assoc, List.take_append_drop]
                rw [hassoc]

theorem jpegWalkAux_exif_step (seg tail : List Nat) (hdr : exifApp1Header seg = true) :
    jpegWalkAux (seg ++ tail) = (jpegWalkAux tail).map
      (fun q => ((removeGPSFromExif seg).1 ++ q.1, (removeGPSFromExif seg).2 || q.2)) := by
  simp only [exifApp1Header, Bool.and_eq_true, decide_eq_true_eq, beq_iff_eq] at hdr
  obtain ⟨⟨⟨⟨⟨⟨⟨⟨⟨h12, hb0⟩, hb1⟩, hlen⟩, hb4⟩, hb5⟩, hb6⟩, hb7⟩, hb8⟩, hb9⟩ := hdr
  have ha0 : byteAt (seg ++ tail) 0 = byteAt seg 0 := byteAt_append_left _ (by omega)
  have ha1 : byteAt (seg ++ tail) 1 = byteAt seg 1 := byteAt_append_left _ (by omega)
  have ha2 : byteAt (seg ++ tail) 2 = byteAt seg 2 := byteAt_append_left _ (by omega)
  have ha3 : byteAt (seg ++ tail) 3 = byteAt seg 3 := byteAt_append_left _ (by omega)
  have ha4 : byteAt (seg ++ tail) 4 = byteAt seg 4 := byteAt_append_left _ (by omega)
  have ha5 : byteAt (seg ++ tail) 5 = byteAt seg 5 := byteAt_append_left _ (by omega)
  have ha6 : byteAt (seg ++ tail) 6 = byteAt seg 6 := byteAt_append_left _ (by omega)
  have ha7 : byteAt (seg ++ tail) 7 = byteAt seg 7 := byteAt_append_left _ (by omega)
  have ha8 : byteAt (seg ++ tail) 8 = byteAt seg 8 := byteAt_append_left _ (by omega)
  have ha9 : byteAt (seg ++ tail) 9 = byteAt seg 9 := byteAt_append_left _ (by omega)
  have hr16 : readU16BE (seg ++ tail) 2 = readU16BE seg 2 := by
    rw [readU16BE, readU16BE, ha2, ha3]
  have hlapp : (seg ++ tail).length = seg.length + tail.length := by simp
  rw [jpegWalkAux_eq]
  rw [if_neg (by omega), ha0, ha1, hb0, hb1, hr16]
  rw [if_neg (by simp), if_neg (by omega), if_neg (by omega), if_neg (by omega),
    if_neg (by omega)]
  rw [if_pos (by
    refine ⟨rfl, by omega, ?_, ?_, ?_, ?_, ?_, ?_⟩ <;>
      simp [ha4, ha5, ha6, ha7, ha8, ha9, hb4, hb5, hb6, hb7, hb8, hb9])]
  have hsl : readU16BE seg 2 + 2 = seg.length := by omega
  rw [hsl]
  rw [List.drop_left, List.take_left]
  rcases jpegWalkAux tail with _ | ⟨out, m⟩
  · rfl
  · simp only [Option.map_some']

/-! ### Lemmas: stripGPSFromJPEG on a decomposed stream -/

theorem stripGPS_decomp (pre seg tail : List Nat)
    (hpre : plainSegs pre = true) (hseg : exifApp1Header seg = true)
    (htail : tailTerminal tail = true) :
    stripGPSFromJPEG (0xFF :: 0xD8 :: (pre ++ (seg ++ tail))) =
      some (0xFF :: 0xD8 :: (pre ++ ((removeGPSFromExif seg).1 ++ tail)),
        !(segGpsOffsets seg).isEmpty) := by
  rw [stripGPSFromJPEG]
  rw [if_neg (by
    push_neg
    refine ⟨by simp, rfl, rfl⟩)]
  have hdrop : (0xFF :: 0xD8 :: (pre ++ (seg ++ tail))).drop 2 = pre ++ (seg ++ tail) := rfl
  rw [hdrop]
  rw [jpegWalkAux_plain_lead pre.length pre (le_refl pre.length) hpre (seg ++ tail)]
  rw [jpegWalkAux_exif_step seg tail hseg]
  rw [jpegWalkAux_terminal htail]
  simp only [Option.map_some']
  rw [(removeGPS_spec seg).2.1, Bool.or_false]

theorem exifApp1Header_removeGPS (seg : List Nat) (h8 : 8 ≤ segIfdOffset seg)
    (hseg : exifApp1Header seg = true) :
    exifApp1Header ((removeGPSFromExif seg).1) = true := by
  have hlen := (removeGPS_spec seg).1
  have hlow : ∀ j, j < 20 → byteAt (removeGPSFromExif seg).1 j = byteAt seg j :=
    fun j hj => removeGPS_byteAt_low seg h8 hj
  have hr16 : readU16BE (removeGPSFromExif seg).1 2 = readU16BE seg 2 := by
    rw [readU16BE, readU16BE, hlow 2 (by omega), hlow 3 (by omega)]
  simp only [exifApp1Header, Bool.and_eq_true, decide_eq_true_eq, beq_iff_eq] at hseg ⊢
  obtain ⟨⟨⟨⟨⟨⟨⟨⟨⟨h12, hb0⟩, hb1⟩, hl⟩, hb4⟩, hb5⟩, hb6⟩, hb7⟩, hb8⟩, hb9⟩ := hseg
  refine ⟨⟨⟨⟨⟨⟨⟨⟨⟨by omega, ?_⟩, ?_⟩, ?_⟩, ?_⟩, ?_⟩, ?_⟩, ?_⟩, ?_⟩, ?_⟩
  · rw [hlow 0 (by omega)]; exact hb0
  · rw [hlow 1 (by omega)]; exact hb1
  · rw [hlen, hr16]; exact hl
  · rw [hlow 4 (by omega)]; exact hb4
  · rw [hlow 5 (by omega)]; exact hb5
  · rw [hlow 6 (by omega)]; exact hb6
  · rw [hlow 7 (by omega)]; exact hb7
  · rw [hlow 8 (by omega)]; exact hb8
  · rw [hlow 9 (by omega)]; exact hb9

/-! ### Lemmas: decimal rendering -/

theorem natStrF_congr (f1 : Nat) : ∀ f2 n, n < f1 → n < f2 → natStrF f1 n = natStrF f2 n := by
  induction f1 with
  | zero => intro f2 n h1 _; omega
  | succ f1 ih =>
    intro f2 n h1 h2
    cases f2 with
    | zero => omega
    | succ f2 =>
      simp only [natStrF]
      by_cases h : n < 10
      · rw [if_pos h, if_pos h]
      · rw [if_neg h, if_neg h, ih f2 (n / 10) (by omega) (by omega)]

theorem natStrL_eq (n : Nat) :
    natStrL n = if n < 10 then [digitChr n] else natStrL (n / 10) ++ [digitChr (n % 10)] := by
  show natStrF (n + 1) n = _
  simp only [natStrF]
  by_cases h : n < 10
  · rw [if_pos h, if_pos h]
  · rw [if_neg h, if_neg h, natStrF_congr n (n / 10 + 1) (n / 10) (by omega) (by omega)]
    rfl

theorem digitChr_inj {a b : Nat} (ha : a < 10) (hb : b < 10) (h : digitChr a = digitChr b) :
    a = b := by
  have hd : ∀ x, x < 10 → ∀ y, y < 10 → digitChr x = digitChr y → x = y := by decide
  exact hd a ha b hb h

theorem natStrL_ne_nil (n : Nat) : natStrL n ≠ [] := by
  rw [natStrL_eq]
  split <;> simp

theorem natStrL_inj_bounded (k : Nat) : ∀ m n, m ≤ k → natStrL m = natStrL n → m = n := by
  induction k with
  | zero =>
    intro m n hm h
    have hm0 : m = 0 := by omega
    subst hm0
    rw [natStrL_eq 0, natStrL_eq n] at h
    rw [if_pos (by omega)] at h
    by_cases h2 : n < 10
    · rw [if_pos h2] at h
      simp only [List.cons.injEq, and_true] at h
      exact digitChr_inj (by omega) h2 h
    · rw [if_neg h2] at h
      have hlen := congrArg List.length h
      simp only [List.length_cons, List.length_append, List.length_nil] at hlen
      exact absurd (List.eq_nil_of_length_eq_zero (by omega)) (natStrL_ne_nil (n / 10))
  | succ k ih =>
    intro m n hm h
    rw [natStrL_eq m, natStrL_eq n] at h
    by_cases h1 : m < 10 <;> by_cases h2 : n < 10
    · rw [if_pos h1, if_pos h2] at h
      simp only [List.cons.injEq, and_true] at h
      exact digitChr_inj h1 h2 h
    · rw [if_pos h1, if_neg h2] at h
      have hlen := congrArg List.length h
      simp only [List.length_cons, List.length_append, List.length_nil] at hlen
      exact absurd (List.eq_nil_of_length_eq_zero (by omega)) (natStrL_ne_nil (n / 10))
    · rw [if_neg h1, if_pos h2] at h
      have hlen := congrArg List.length h
      simp only [List.length_cons, List.length_append, List.length_nil] at hlen
      exact absurd (List.eq_nil_of_length_eq_zero (by omega)) (natStrL_ne_nil (m / 10))
    · rw [if_neg h1, if_neg h2] at h
      have hsplit := List.append_inj' h (by simp)
      have hdiv : m / 10 = n / 10 := ih (m / 10) (n / 10) (by omega) hsplit.1
      have hmod : m % 10 = n % 10 := by
        have := hsplit.2
        simp only [List.cons.injEq, and_true] at this
        exact digitChr_inj (by omega) (by omega) this
      omega

theorem natStr_inj {m n : Nat} (h : natStr m = natStr n) : m = n := by
  have hl : natStrL m = natStrL n := by
    have := congrArg String.toList h
    rwa [natStr, natStr, List.toList_asString, List.toList_asString] at this
  exact natStrL_inj_bounded m m n (le_refl m) hl

/-! ### Lemmas: slug candidates and the collision loop -/

theorem extSearch_suffix : ∀ rcs acc : List Char, extSearch rcs acc <:+ rcs.reverse ++ acc := by
  intro rcs
  induction rcs with
  | nil => intro acc; exact List.nil_suffix
  | cons c rest ih =>
    intro acc
    simp only [extSearch, List.reverse_cons, List.append_assoc, List.singleton_append]
    by_cases hslash : c = '/'
    · rw [if_pos hslash]; exact List.nil_suffix
    · rw [if_neg hslash]
      by_cases hdot : c = '.'
      · rw [if_pos hdot]
        exact List.suffix_append rest.reverse (c :: acc)
      · rw [if_neg hdot]
        exact ih (c :: acc)

theorem filepathExt_suffix (s : String) : (filepathExt s).toList <:+ s.toList := by
  rw [filepathExt, List.toList_asString]
  have h := extSearch_suffix s.toList.reverse []
  rwa [List.reverse_reverse, List.append_nil] at h

theorem asString_append (a b : List Char) : (a ++ b).asString = a.asString ++ b.asString := by
  apply String.ext
  show a ++ b = (List.asString a ++ List.asString b).data
  rw [String.data_append]
  rfl

theorem trimSuffix_append_ext (s : String) :
    trimSuffix s (filepathExt s) ++ filepathExt s = s := by
  rw [trimSuffix, if_pos (List.isSuffixOf_iff_suffix.mpr (filepathExt_suffix s))]
  obtain ⟨p, hp⟩ := filepathExt_suffix s
  have hlen : p.length = s.toList.length - (filepathExt s).toList.length := by
    have := congrArg List.length hp
    simp only [List.length_append] at this
    omega
  have htake : s.toList.take (s.toList.length - (filepathExt s).toList.length) = p := by
    rw [← hlen, ← hp, List.take_left]
  rw [htake]
  apply String.ext
  show (List.asString p ++ filepathExt s).data = s.data
  rw [String.data_append]
  show p ++ (filepathExt s).toList = s.toList
  exact hp

theorem string_toList_inj {a b : String} (h : a.toList = b.toList) : a = b :=
  String.ext h

theorem slugCand_zero (slug : String) : slugCand slug 0 = slug := rfl

theorem slugCand_pos (slug : String) (i : Nat) (hi : i ≠ 0) :
    slugCand slug i = trimSuffix slug (filepathExt slug) ++ "-" ++ natStr i ++ filepathExt slug := by
  rw [slugCand, if_neg hi]

theorem slugCand_inj (slug : String) {i j : Nat} (h : slugCand slug i = slugCand slug j) :
    i = j := by
  have hself := congrArg String.data (trimSuffix_append_ext slug)
  rw [String.data_append] at hself
  have hdash : ("-" : String).data.length = 1 := rfl
  by_cases hi : i = 0 <;> by_cases hj : j = 0
  · omega
  · exfalso
    rw [hi, slugCand_zero, slugCand_pos slug j hj] at h
    have hd := congrArg String.data h
    simp only [String.data_append, List.append_assoc] at hd
    rw [← hself] at hd
    have hcancel := List.append_cancel_left hd
    have hlen := congrArg List.length hcancel
    simp only [List.length_append, List.length_cons] at hlen
    omega
  · exfalso
    rw [hj, slugCand_zero, slugCand_pos slug i hi] at h
    have hd := congrArg String.data h.symm
    simp only [String.data_append, List.append_assoc] at hd
    rw [← hself] at hd
    have hcancel := List.append_cancel_left hd
    have hlen := congrArg List.length hcancel
    simp only [List.length_append, List.length_cons] at hlen
    omega
  · rw [slugCand_pos slug i hi, slugCand_pos slug j hj] at h
    have hd := congrArg String.data h
    simp only [String.data_append, List.append_assoc] at hd
    have h1 := List.append_cancel_left hd
    have h2 := List.append_cancel_left h1
    have h3 := List.append_cancel_right h2
    exact natStr_inj (String.ext h3)

theorem slugLoop_finds (ex : String → Bool) (base ext : String) (now : Nat) :
    ∀ r i j, i ≤ j → j < i + r →
      (∀ t, i ≤ t → t < j → ex (base ++ "-" ++ natStr t ++ ext) = true) →
      ex (base ++ "-" ++ natStr j ++ ext) = false →
      slugLoop ex base ext now i r = base ++ "-" ++ natStr j ++ ext := by
  intro r
  induction r with
  | zero => intro i j h1 h2 _ _; omega
  | succ r ih =>
    intro i j h1 h2 hall hj
    simp only [slugLoop]
    by_cases hij : i = j
    · subst hij
      simp [hj]
    · have hi := hall i (le_refl i) (by omega)
      simp only [hi, if_true]
      exact ih (i + 1) j (by omega) (by omega) (fun t ht1 ht2 => hall t (by omega) ht2) hj

theorem slugLoop_or (ex : String → Bool) (base ext : String) (now : Nat) :
    ∀ r i, ex (slugLoop ex base ext now i r) = false ∨
      slugLoop ex base ext now i r = base ++ "-" ++ natStr now ++ ext := by
  intro r
  induction r with
  | zero => intro i; right; rfl
  | succ r ih =>
    intro i
    simp only [slugLoop]
    by_cases hx : ex (base ++ "-" ++ natStr i ++ ext) = true
    · simp only [hx, if_true]
      exact ih (i + 1)
    · left
      simp only [Bool.not_eq_true] at hx
      simp [hx]

theorem contains_iff_mem (l : List String) (a : String) : l.contains a = true ↔ a ∈ l :=
  List.elem_iff

theorem mem_slugCand_map (slug : String) (t u : Nat) :
    slugCand slug u ∈ (List.range t).map (slugCand slug) ↔ u < t := by
  simp only [List.mem_map, List.mem_range]
  constructor
  · rintro ⟨v, hv, heq⟩
    have := slugCand_inj slug heq
    omega
  · intro h
    exact ⟨u, h, rfl⟩

theorem generateURLPath_same_slug (slug : String) (now : Nat) (p : String)
    (hp : sanitizeURLPath p = slug) (t : Nat) (ht : t ≤ 9999) :
    ScannerService.generateURLPath
      (fun s => (((List.range t).map (slugCand slug)).contains s)) now p = slugCand slug t := by
  simp only [ScannerService.generateURLPath, hp]
  by_cases ht0 : t = 0
  · subst ht0
    simp [slugCand_zero]
  · have hmem : (((List.range t).map (slugCand slug)).contains slug) = true := by
      have h0 : slugCand slug 0 ∈ (List.range t).map (slugCand slug) :=
        (mem_slugCand_map slug t 0).mpr (by omega)
      rw [slugCand_zero] at h0
      exact (contains_iff_mem _ _).mpr h0
    rw [hmem]
    have hfind := slugLoop_finds (fun s => (((List.range t).map (slugCand slug)).contains s))
        (trimSuffix slug (filepathExt slug)) (filepathExt slug) now 9999 1 t (by omega)
        (by omega)
        (fun u hu1 hu2 => by
          show (((List.range t).map (slugCand slug)).contains
            (trimSuffix slug (filepathExt slug) ++ "-" ++ natStr u ++ filepathExt slug)) = true
          rw [← slugCand_pos slug u (by omega), contains_iff_mem, mem_slugCand_map]
          omega)
        (by
          show (((List.range t).map (slugCand slug)).contains
            (trimSuffix slug (filepathExt slug) ++ "-" ++ natStr t ++ filepathExt slug)) = false
          rw [← slugCand_pos slug t ht0]
          have hnm : ¬ slugCand slug t ∈ (List.range t).map (slugCand slug) := by
            rw [mem_slugCand_map]
            omega
          rcases hb : (((List.range t).map (slugCand slug)).contains (slugCand slug t)) with _ | _
          · rfl
          · exact absurd ((contains_iff_mem _ _).mp hb) hnm)
    simp only [Bool.not_true, if_false]
    rw [hfind, ← slugCand_pos slug t ht0]
    simp

theorem ingestAux_spec (slug : String) (now : Nat) :
    ∀ ps t, (∀ p ∈ ps, sanitizeURLPath p = slug) → t + ps.length ≤ 10000 →
      ingestAux now ((List.range t).map (slugCand slug)) ps =
        (List.range (t + ps.length)).map (slugCand slug) := by
  intro ps
  induction ps with
  | nil => intro t _ _; simp [ingestAux]
  | cons p ps' ih =>
    intro t hall hlen
    simp only [ingestAux]
    rw [generateURLPath_same_slug slug now p (hall p (by simp)) t
      (by simp only [List.length_cons] at hlen; omega)]
    have hstep : (List.range t).map (slugCand slug) ++ [slugCand slug t] =
        (List.range (t + 1)).map (slugCand slug) := by
      rw [List.range_succ, List.map_append]
      rfl
    rw [hstep, ih (t + 1) (fun q hq => hall q (by simp [hq]))
      (by simp only [List.length_cons] at hlen ⊢; omega)]
    have harith : t + (p :: ps').length = t + 1 + ps'.length := by
      simp only [List.length_cons]
      omega
    rw [harith]

theorem slugCand_map_range_nodup (slug : String) (t : Nat) :
    (((List.range t).map (slugCand slug))).Nodup :=
  List.Nodup.map_on (fun x _ y _ h => slugCand_inj slug h) (List.nodup_range t)

/-! ### Lemmas: re-scan is a no-op when everything already exists -/

theorem processPhoto_existing (env : ScanEnv) (db : ScanDB) (relPath : String)
    (folderId : Option Nat) (h : relPath ∈ db.photos.map PhotoRow.path) :
    ScannerService.processPhoto env db relPath folderId = (db, []) := by
  rw [ScannerService.processPhoto, if_pos ((contains_iff_mem _ _).mpr h)]

theorem ensureFolder_existing (db : ScanDB) (path name : String) (parent : Option Nat)
    (frow : FolderRow) (h : db.folders.find? (fun f => f.path == path) = some frow) :
    ScannerService.ensureFolder db path name parent = (db, frow.id, []) := by
  rw [ScannerService.ensureFolder, h]

mutual
theorem scanEntry_idem (env : ScanEnv) (db : ScanDB) (rel : String) (parent : Option Nat)
    (t : FTree)
    (hph : ∀ p ∈ treePhotoPaths rel t, p ∈ db.photos.map PhotoRow.path)
    (hdr : ∀ d ∈ treeDirPaths rel t, (db.folders.find? (fun f => f.path == d)).isSome) :
    scanEntry env db rel parent t = (db, []) := by
  cases t with
  | file name =>
    rw [scanEntry]
    by_cases hh : isHiddenName name = true
    · rw [if_pos hh]
    · rw [if_neg hh]
      by_cases him : isImageFile name = true
      · rw [if_pos him]
        apply processPhoto_existing
        apply hph
        simp [treePhotoPaths, hh, him]
      · rw [if_neg him]
  | dir name children =>
    rw [scanEntry]
    by_cases hh : isHiddenName name = true
    · rw [if_pos hh]
    · rw [if_neg hh]
      have hd : (db.folders.find? (fun f => f.path == joinPath rel name)).isSome := by
        apply hdr
        simp [treeDirPaths, hh]
      obtain ⟨frow, hf⟩ := Option.isSome_iff_exists.mp hd
      rw [ensureFolder_existing db (joinPath rel name) name parent frow hf]
      dsimp only
      rw [scanEntries_idem env db (joinPath rel name) (some frow.id) children
        (by
          intro p hp
          apply hph
          simp [treePhotoPaths, hh]
          exact hp)
        (by
          intro d hdm
          apply hdr
          simp [treeDirPaths, hh]
          exact Or.inr hdm)]
      rfl

theorem scanEntries_idem (env : ScanEnv) (db : ScanDB) (rel : String) (parent : Option Nat)
    (ts : List FTree)
    (hph : ∀ p ∈ treePhotoPathsList rel ts, p ∈ db.photos.map PhotoRow.path)
    (hdr : ∀ d ∈ treeDirPathsList rel ts, (db.folders.find? (fun f => f.path == d)).isSome) :
    scanEntries env db rel parent ts = (db, []) := by
  cases ts with
  | nil => rw [scanEntries]
  | cons t ts' =>
    rw [scanEntries]
    rw [scanEntry_idem env db rel parent t
      (fun p hp => hph p (by simp only [treePhotoPathsList, List.mem_append]; exact Or.inl hp))
      (fun d hd => hdr d (by simp only [treeDirPathsList, List.mem_append]; exact Or.inl hd))]
    rw [scanEntries_idem env db rel parent ts'
      (fun p hp => hph p (by simp only [treePhotoPathsList, List.mem_append]; exact Or.inr hp))
      (fun d hd => hdr d (by simp only [treeDirPathsList, List.mem_append]; exact Or.inr hd))]
    rfl
end

/-! ### Lemmas: the checked variant agrees and never goes out of bounds -/

theorem readU16Checked_eq (le : Bool) (l : List Nat) (i : Nat) (h : i + 1 < l.length) :
    readU16Checked le l i = some (readU16 le l i) := by
  rw [readU16Checked, List.getElem?_eq_getElem (show i < l.length by omega),
    List.getElem?_eq_getElem h]
  cases le <;>
    simp [readU16, readU16LE, readU16BE, byteAt, List.getD_eq_getElem?_getD,
      List.getElem?_eq_getElem, h, show i < l.length by omega]

theorem readU32Checked_eq (le : Bool) (l : List Nat) (i : Nat) (h : i + 3 < l.length) :
    readU32Checked le l i = some (readU32 le l i) := by
  rw [readU32Checked, List.getElem?_eq_getElem (show i < l.length by omega),
    List.getElem?_eq_getElem (show i + 1 < l.length by omega),
    List.getElem?_eq_getElem (show i + 2 < l.length by omega),
    List.getElem?_eq_getElem h]
  cases le <;>
    simp [readU32, readU32LE, readU32BE, byteAt, List.getD_eq_getElem?_getD,
      List.getElem?_eq_getElem, h, show i < l.length by omega,
      show i + 1 < l.length by omega, show i + 2 < l.length by omega]

theorem tiffByteOrderChecked_eq (d : List Nat) (h : 2 ≤ d.length) :
    tiffByteOrderChecked d = some (tiffByteOrder d) := by
  rw [tiffByteOrderChecked, List.getElem?_eq_getElem (show 0 < d.length by omega),
    List.getElem?_eq_getElem (show 1 < d.length by omega)]
  simp [tiffByteOrder, byteAt, List.getD_eq_getElem?_getD, List.getElem?_eq_getElem,
    show 0 < d.length by omega, show 1 < d.length by omega]

theorem gpsZeroLoopChecked_eq (le : Bool) (n : Nat) : ∀ buf off,
    gpsZeroLoopChecked le buf off n = some (gpsZeroLoop le buf off n) := by
  induction n with
  | zero => intro buf off; rfl
  | succ n ih =>
    intro buf off
    rw [gpsZeroLoopChecked, gpsZeroLoop]
    split
    · rfl
    · rename_i hlen
      rw [readU16Checked_eq le buf off (by omega)]
      dsimp only
      by_cases htag : readU16 le buf off = 0x8825
      · rw [if_pos htag, if_pos htag]
        rw [zero12Checked, if_pos (by omega)]
        dsimp only
        rw [ih (zero12 buf off) (off + 12)]
      · rw [if_neg htag, if_neg htag]
        exact ih buf (off + 12)

theorem removeGPSChecked_eq (segment : List Nat) :
    removeGPSChecked segment = some (removeGPSFromExif segment) := by
  rw [removeGPSChecked, removeGPSFromExif]
  by_cases h12 : segment.length < 12
  · rw [if_pos h12, if_pos h12]
  · rw [if_neg h12, if_neg h12]
    by_cases h8 : (segment.drop 10).length < 8
    · rw [if_pos h8, if_pos h8]
    · rw [if_neg h8, if_neg h8]
      rw [tiffByteOrderChecked_eq (segment.drop 10) (by omega)]
      rcases hbo : tiffByteOrder (segment.drop 10) with _ | le
      · rfl
      · dsimp only
        rw [readU32Checked_eq le (segment.drop 10) 4 (by omega)]
        dsimp only
        by_cases hk : (segment.drop 10).length ≤ readU32 le (segment.drop 10) 4
        · rw [if_pos hk, if_pos hk]
        · rw [if_neg hk, if_neg hk]
          by_cases hk2 : (segment.drop 10).length < readU32 le (segment.drop 10) 4 + 2
          · rw [if_pos hk2, if_pos hk2]
          · rw [if_neg hk2, if_neg hk2]
            rw [readU16Checked_eq le (segment.drop 10) (readU32 le (segment.drop 10) 4)
              (by omega)]
            dsimp only
            rw [gpsZeroLoopChecked_eq le _ (segment.drop 10)
              (readU32 le (segment.drop 10) 4 + 2)]

/-! ### The claims -/

/-- Claim C1: for a JPEG stream whose EXIF APP1 segment's IFD0 holds a GPS
pointer entry (tag 0x8825), stripGPSFromJPEG keeps the total byte length and
the segment's declared length field, changes no byte outside the matching
12-byte directory entries, and zeroes all 12 bytes of each matching entry. -/
theorem claim_C1 (pre seg tail : List Nat)
    (hpre : plainSegs pre = true) (hseg : exifApp1Header seg = true)
    (htail : tailTerminal tail = true) (hgps : segGpsOffsets seg ≠ []) :
    ∃ seg',
      stripGPSFromJPEG (0xFF :: 0xD8 :: (pre ++ (seg ++ tail))) =
        some (0xFF :: 0xD8 :: (pre ++ (seg' ++ tail)), true) ∧
      (0xFF :: 0xD8 :: (pre ++ (seg' ++ tail))).length =
        (0xFF :: 0xD8 :: (pre ++ (seg ++ tail))).length ∧
      readU16BE seg' 2 = readU16BE seg 2 ∧
      (∀ j, (∀ o ∈ segGpsOffsets seg, ¬(10 + o ≤ j ∧ j < 10 + o + 12)) →
        byteAt seg' j = byteAt seg j) ∧
      (∀ j o, o ∈ segGpsOffsets seg → 10 + o ≤ j → j < 10 + o + 12 → byteAt seg' j = 0) := by
  have spec := removeGPS_spec seg
  refine ⟨(removeGPSFromExif seg).1, ?_, ?_, ?_, spec.2.2.1, fun j o ho h1 h2 =>
    spec.2.2.2.1 j o ho h1 h2⟩
  · rw [stripGPS_decomp pre seg tail hpre hseg htail]
    have hne : (segGpsOffsets seg).isEmpty = false := by
      rcases h : segGpsOffsets seg with _ | ⟨a, l⟩
      · exact absurd h hgps
      · rfl
    rw [hne]
    rfl
  · simp only [List.length_cons, List.length_append, spec.1]
  · have hb := spec.2.2.2.2.1
    rw [readU16BE, readU16BE, spec.2.2.1 2 (fun o ho => by have := hb o ho; omega),
      spec.2.2.1 3 (fun o ho => by have := hb o ho; omega)]

/-- Witness for claim C1 on a concrete JPEG stream with one GPS pointer
entry. -/
theorem claim_C1_witness :
    ∃ seg',
      stripGPSFromJPEG (0xFF :: 0xD8 :: (preW ++ (segW ++ tailW))) =
        some (0xFF :: 0xD8 :: (preW ++ (seg' ++ tailW)), true) ∧
      (0xFF :: 0xD8 :: (preW ++ (seg' ++ tailW))).length =
        (0xFF :: 0xD8 :: (preW ++ (segW ++ tailW))).length ∧
      readU16BE seg' 2 = readU16BE segW 2 ∧
      (∀ j, (∀ o ∈ segGpsOffsets segW, ¬(10 + o ≤ j ∧ j < 10 + o + 12)) →
        byteAt seg' j = byteAt segW j) ∧
      (∀ j o, o ∈ segGpsOffsets segW → 10 + o ≤ j → j < 10 + o + 12 → byteAt seg' j = 0) :=
  claim_C1 preW segW tailW (by decide) (by decide) (by decide) (by decide)

/-- Claim C2: a stream that does not start with the SOI marker is returned
unchanged with modified = false (no write), and a second application of
stripGPSFromJPEG to an output of stripGPSFromJPEG reports modified = false
(no write; the zeroed entry's tag no longer equals 0x8825).  The second part
assumes the standard TIFF layout 8 ≤ IFD0 offset, which keeps the header
bytes outside every zeroed entry. -/
theorem claim_C2 :
    (∀ data : List Nat, data.length < 2 ∨ byteAt data 0 ≠ 0xFF ∨ byteAt data 1 ≠ 0xD8 →
      stripGPSFromJPEG data = some (data, false)) ∧
    (∀ pre seg tail : List Nat, plainSegs pre = true → exifApp1Header seg = true →
      tailTerminal tail = true → 8 ≤ segIfdOffset seg →
      ∀ out m, stripGPSFromJPEG (0xFF :: 0xD8 :: (pre ++ (seg ++ tail))) = some (out, m) →
        stripGPSFromJPEG out = some (out, false)) := by
  constructor
  · intro data h
    rw [stripGPSFromJPEG, if_pos h]
  · intro pre seg tail hpre hseg htail h8 out m hout
    have hd := stripGPS_decomp pre seg tail hpre hseg htail
    have h := hout.symm.trans hd
    simp only [Option.some.injEq, Prod.mk.injEq] at h
    obtain ⟨h1, _⟩ := h
    subst h1
    have hidem := removeGPS_idem seg h8
    have hd2 := stripGPS_decomp pre ((removeGPSFromExif seg).1) tail hpre
      (exifApp1Header_removeGPS seg h8 hseg) htail
    rw [hidem] at hd2
    have hflag : (!(segGpsOffsets ((removeGPSFromExif seg).1)).isEmpty) = false := by
      have h2 := (removeGPS_spec ((removeGPSFromExif seg).1)).2.1
      rw [hidem] at h2
      exact h2.symm
    rw [hflag] at hd2
    exact hd2

/-- Witness for claim C2: a non-JPEG byte and a concrete already-stripped
stream. -/
theorem claim_C2_witness :
    stripGPSFromJPEG [0] = some ([0], false) ∧
    stripGPSFromJPEG outW = some (outW, false) :=
  ⟨claim_C2.1 [0] (by decide),
   claim_C2.2 preW segW tailW (by decide) (by decide) (by decide) (by decide) outW true
     (by decide)⟩

/-- Claim C3 counterexample: when the file cannot be opened (os.Open fails),
Extract propagates the error instead of returning an empty record, so
"Extract never returns an error" is false. -/
theorem claim_C3_counterexample :
    ExifService.Extract
      { hasExiftool := false, toolOutput := none, fileReadable := false, goexifDecode := none } =
      Except.error () := rfl

/-- Claim C3 (amended): for every readable file Extract returns without
error, and a readable file whose goexif decode fails (no EXIF segment) with
no exiftool output yields the empty record and zero capture time. -/
theorem claim_C3 (env : ExtractEnv) (hr : env.fileReadable = true) :
    (∃ out, ExifService.Extract env = Except.ok out) ∧
    (env.goexifDecode = none → env.toolOutput = none →
      ExifService.Extract env = Except.ok (emptyExifInfo, 0)) := by
  cases env with
  | mk hasE toolO fileR goexD =>
    simp only at hr
    subst hr
    constructor
    · cases hasE <;> cases toolO <;> cases goexD <;>
        simp [ExifService.Extract, ExifService.extractWithExiftool,
          ExifService.extractWithGoexif]
    · intro h1 h2
      simp only at h1 h2
      subst h1; subst h2
      cases hasE <;>
        simp [ExifService.Extract, ExifService.extractWithExiftool,
          ExifService.extractWithGoexif]

/-- Witness for claim C3: a readable file with no EXIF data. -/
theorem claim_C3_witness :
    ExifService.Extract
      { hasExiftool := false, toolOutput := none, fileReadable := true, goexifDecode := none } =
      Except.ok (emptyExifInfo, 0) :=
  (claim_C3
    { hasExiftool := false, toolOutput := none, fileReadable := true, goexifDecode := none }
    rfl).2 rfl rfl

/-- Claim C4 counterexample: a disallowed character other than a space is
deleted, not mapped to a hyphen, so "runs of disallowed characters map to
single hyphens" is false. -/
theorem claim_C4_counterexample :
    sanitizeURLPath "a!b" = "ab" ∧ sanitizeURLPath "a!b" ≠ "a-b" := by decide

/-- Claim C4 (amended): sanitizeURLPath lower-cases, turns runs of spaces
into single hyphens, deletes the other disallowed characters, and preserves
slashes and dots; the cited path sanitizes as claimed, and a second photo
whose path sanitizes to the occupied slug receives the -1 suffix. -/
theorem claim_C4 :
    sanitizeURLPath "Trips/2024 Paris/IMG_0001.JPG" = "trips/2024-paris/img_0001.jpg" ∧
    sanitizeURLPath "a  b!?" = "a-b" ∧
    (∀ now p, sanitizeURLPath p = "trips/2024-paris/img_0001.jpg" →
      ScannerService.generateURLPath
        (fun s => (((List.range 1).map (slugCand "trips/2024-paris/img_0001.jpg")).contains s))
        now p = "trips/2024-paris/img_0001-1.jpg") := by
  refine ⟨by decide, by decide, fun now p hp => ?_⟩
  rw [generateURLPath_same_slug "trips/2024-paris/img_0001.jpg" now p hp 1 (by omega)]
  decide

/-- Witness for claim C4: a concrete second path colliding with the occupied
slug. -/
theorem claim_C4_witness :
    ScannerService.generateURLPath
      (fun s => (((List.range 1).map (slugCand "trips/2024-paris/img_0001.jpg")).contains s))
      7 "TRIPS/2024 PARIS/IMG_0001.JPG" = "trips/2024-paris/img_0001-1.jpg" :=
  claim_C4.2.2 7 "TRIPS/2024 PARIS/IMG_0001.JPG" (by decide)

/-- Claim C5: sequentially ingesting paths that all sanitize to one slug
assigns the slug itself first, then -1, -2, ... in order; all assigned paths
are distinct; and for any catalog the generator either returns a candidate
the catalog does not contain or the unix-nanosecond fallback.  The bound
10000 covers the unsuffixed check plus the loop's 9999 suffixes. -/
theorem claim_C5 (slug : String) (now : Nat) (ps : List String)
    (hall : ∀ p ∈ ps, sanitizeURLPath p = slug) (hlen : ps.length ≤ 10000) :
    ingestAll now ps = (List.range ps.length).map (slugCand slug) ∧
    (ingestAll now ps).Nodup ∧
    (ps ≠ [] → (ingestAll now ps).head? = some slug) ∧
    (∀ ex : String → Bool, ∀ p,
      ex (ScannerService.generateURLPath ex now p) = false ∨
        ScannerService.generateURLPath ex now p =
          trimSuffix (sanitizeURLPath p) (filepathExt (sanitizeURLPath p)) ++ "-" ++
            natStr now ++ filepathExt (sanitizeURLPath p)) := by
  have h0 : ingestAll now ps = (List.range ps.length).map (slugCand slug) := by
    have h := ingestAux_spec slug now ps 0 hall (by omega)
    simpa [ingestAll] using h
  refine ⟨h0, ?_, ?_, ?_⟩
  · rw [h0]; exact slugCand_map_range_nodup slug ps.length
  · intro hne
    rw [h0]
    cases ps with
    | nil => exact absurd rfl hne
    | cons p ps' =>
      simp only [List.length_cons]
      rw [List.range_succ_eq_map]
      simp [slugCand_zero]
  · intro ex p
    rw [ScannerService.generateURLPath]
    by_cases hx : ex (sanitizeURLPath p) = true
    · simp only [hx, Bool.not_true, if_false]
      exact slugLoop_or ex _ _ now 9999 1
    · left
      simp only [Bool.not_eq_true] at hx
      simp [hx]

/-- Witness for claim C5: three paths with the same sanitized base. -/
theorem claim_C5_witness :
    ingestAll 77 ["A B.jpg", "A  B.jpg", "a-b.jpg"] =
      (List.range 3).map (slugCand "a-b.jpg") :=
  (claim_C5 "a-b.jpg" 77 ["A B.jpg", "A  B.jpg", "a-b.jpg"] (by decide) (by decide)).1

/-- Claim C6: re-scanning is idempotent — an existing photo path returns with
no effects, an existing folder path reuses its identity, and a scan of a tree
whose photos and folders are all in the catalog leaves the catalog unchanged
with no effects. -/
theorem claim_C6 (env : ScanEnv) (db : ScanDB) (rel : String) (parent : Option Nat) :
    (∀ relPath folderId, relPath ∈ db.photos.map PhotoRow.path →
      ScannerService.processPhoto env db relPath folderId = (db, [])) ∧
    (∀ path name par frow, db.folders.find? (fun f => f.path == path) = some frow →
      ScannerService.ensureFolder db path name par = (db, frow.id, [])) ∧
    (∀ ts : List FTree,
      (∀ p ∈ treePhotoPathsList rel ts, p ∈ db.photos.map PhotoRow.path) →
      (∀ d ∈ treeDirPathsList rel ts, (db.folders.find? (fun f => f.path == d)).isSome) →
      scanEntries env db rel parent ts = (db, [])) :=
  ⟨fun relPath folderId h => processPhoto_existing env db relPath folderId h,
   fun path name par frow h => ensureFolder_existing db path name par frow h,
   fun ts hph hdr => scanEntries_idem env db rel parent ts hph hdr⟩

/-- Witness for claim C6: a one-folder one-photo tree already in the
catalog. -/
theorem claim_C6_witness :
    scanEntries { statOk := fun _ => true, now := 5 } dbW "" none
      [FTree.dir "d" [FTree.file "x.jpg"]] = (dbW, []) :=
  (claim_C6 { statOk := fun _ => true, now := 5 } dbW "" none).2.2
    [FTree.dir "d" [FTree.file "x.jpg"]]
    (by simp [treePhotoPathsList, treePhotoPaths, dbW, joinPath])
    (by simp [treeDirPathsList, treeDirPaths, dbW, joinPath])

/-- Claim C7 counterexample: the built-in (goexif) strategy also reports the
mode from bits 3-4 — flash value 9 decodes to "Fired, compulsory", not the
bit-0-only "Fired" — so the claimed asymmetry between the strategies is
false. -/
theorem claim_C7_counterexample :
    (buildGoexifInfo { flash := some 9 }).flash = "Fired, compulsory" ∧
    (buildGoexifInfo { flash := some 9 }).flash ≠ "Fired" := by
  constructor
  · rfl
  · decide

/-- Claim C7 (amended): both strategies share the one decodeFlash, which
reports fired/not-fired from bit 0 and an optional mode from bits 3-4. -/
theorem claim_C7 :
    (∀ d : ToolData, (buildExiftoolInfo d).flash = decodeFlash (d.flash.getD 0)) ∧
    (∀ v, (buildGoexifInfo { flash := some v }).flash = decodeFlash v) ∧
    (∀ v, decodeFlash v =
      (if v % 2 = 1 then "Fired" else "Did not fire") ++
        (if v / 8 % 4 = 1 then ", compulsory"
         else if v / 8 % 4 = 2 then ", suppressed"
         else if v / 8 % 4 = 3 then ", auto" else "")) := by
  refine ⟨fun d => rfl, fun v => rfl, fun v => ?_⟩
  have h4 : v / 8 % 4 = 0 ∨ v / 8 % 4 = 1 ∨ v / 8 % 4 = 2 ∨ v / 8 % 4 = 3 := by omega
  have h2 : v % 2 = 0 ∨ v % 2 = 1 := by omega
  rcases h2 with h2 | h2 <;> rcases h4 with h4 | h4 | h4 | h4 <;>
    · simp [decodeFlash, h2, h4, String.intercalate]
      rfl

/-- Claim C8 counterexample: the rich strategy renders the extracted
exposure-compensation value 0 as "0 EV" with no leading '+', so "values
greater than or equal to zero are rendered with a leading '+'" is false. -/
theorem claim_C8_counterexample :
    (buildExiftoolInfo { exposureComp := some 0 }).exposureComp = "0 EV" ∧
    (buildExiftoolInfo { exposureComp := some 0 }).exposureComp ≠ "+0.0 EV" := by
  constructor
  · rfl
  · decide

/-- Claim C8 (amended): a positive value gets a leading '+', a negative one a
leading '-', in both strategies; but the rich strategy renders the value zero
as "0 EV" with no sign (the goexif strategy keeps '+' at zero). -/
theorem claim_C8 :
    (∀ ec : ℚ, ec ≠ 0 → 0 ≤ ec → richExposureComp ec = "+" ++ fmt1 ec ++ " EV") ∧
    (∀ ec : ℚ, ec < 0 → richExposureComp ec = "-" ++ fmtDec1 (-ec) ++ " EV") ∧
    richExposureComp 0 = "0 EV" ∧
    (∀ num den : Int, 0 ≤ (num : ℚ) / (den : ℚ) →
      goexifExposureComp num den = "+" ++ fmt1 ((num : ℚ) / (den : ℚ)) ++ " EV") ∧
    (∀ num den : Int, (num : ℚ) / (den : ℚ) < 0 →
      goexifExposureComp num den = "-" ++ fmtDec1 (-((num : ℚ) / (den : ℚ))) ++ " EV") := by
  refine ⟨?_, ?_, rfl, ?_, ?_⟩
  · intro ec h0 hp
    rw [richExposureComp, if_pos h0, if_pos hp]
  · intro ec hn
    rw [richExposureComp, if_pos (by exact ne_of_lt hn), if_neg (by exact not_le.mpr hn),
      fmt1, if_pos hn]
  · intro num den h
    rw [goexifExposureComp]
    simp only [if_pos h]
  · intro num den h
    rw [goexifExposureComp]
    simp only [if_neg (not_le.mpr h)]
    rw [fmt1, if_pos h]

/-- Witness for claim C8 at the values 1, -1, 1/2 and -1/2. -/
theorem claim_C8_witness :
    richExposureComp 1 = "+" ++ fmt1 1 ++ " EV" ∧
    richExposureComp (-1) = "-" ++ fmtDec1 (-(-1 : ℚ)) ++ " EV" ∧
    goexifExposureComp 1 2 = "+" ++ fmt1 (((1 : Int) : ℚ) / ((2 : Int) : ℚ)) ++ " EV" ∧
    goexifExposureComp (-1) 2 =
      "-" ++ fmtDec1 (-(((-1 : Int) : ℚ) / ((2 : Int) : ℚ))) ++ " EV" :=
  ⟨claim_C8.1 1 one_ne_zero zero_le_one,
   claim_C8.2.1 (-1) neg_one_lt_zero,
   claim_C8.2.2.2.1 1 2 (by positivity),
   claim_C8.2.2.2.2 (-1) 2 (by norm_num)⟩

/-- Claim C9: a malformed or too-short placeholder encoding yields the flat
mid-gray RGBA(128,128,128,255) bitmap of the requested size with no error;
a well-formed one yields the linear upscale of the decoded 4x4 grid. -/
theorem claim_C9 (blurhash : String) (width height : Nat) :
    ((base64Decode blurhash = none ∨
        (∃ data, base64Decode blurhash = some data ∧ data.length < 48)) →
      ThumbnailService.GeneratePlaceholder blurhash width height =
        PlaceholderResult.flat width height 128 128 128 255) ∧
    (∀ data, base64Decode blurhash = some data → 48 ≤ data.length →
      ThumbnailService.GeneratePlaceholder blurhash width height =
        PlaceholderResult.upscaled (tinyGrid data) width height) := by
  constructor
  · intro h
    rcases h with h | ⟨data, hd, hl⟩
    · rw [ThumbnailService.GeneratePlaceholder, h]
    · rw [ThumbnailService.GeneratePlaceholder, hd]
      simp only [if_pos hl]
  · intro data hd hl
    rw [ThumbnailService.GeneratePlaceholder, hd]
    simp only [if_neg (by omega : ¬ data.length < 48)]

/-- Witness for claim C9: an invalid encoding falls back to mid-gray, and a
48-byte all-zero grid upscales. -/
theorem claim_C9_witness :
    ThumbnailService.GeneratePlaceholder "####" 10 20 =
      PlaceholderResult.flat 10 20 128 128 128 255 ∧
    ThumbnailService.GeneratePlaceholder
      "AAAAAAAAAAAAAAAAAAAAAAAAAAAAAAAAAAAAAAAAAAAAAAAAAAAAAAAAAAAAAAAA" 4 4 =
      PlaceholderResult.upscaled (tinyGrid (List.replicate 48 0)) 4 4 :=
  ⟨(claim_C9 "####" 10 20).1 (Or.inl (by decide)),
   (claim_C9 "AAAAAAAAAAAAAAAAAAAAAAAAAAAAAAAAAAAAAAAAAAAAAAAAAAAAAAAAAAAAAAAA" 4 4).2
     (List.replicate 48 0) (by decide) (by decide)⟩

/-- Claim C10 counterexample: the marker walk of stripGPSFromJPEG slices
data[pos : pos+segLen] without checking the declared length against the
remaining bytes, so an APP0 segment declaring length 0xFFFF inside a 6-byte
file panics (modelled as none) instead of returning. -/
theorem claim_C10_counterexample :
    stripGPSFromJPEG [0xFF, 0xD8, 0xFF, 0xE0, 0xFF, 0xFF] = none := by decide

/-- Claim C10 (amended): removeGPSFromExif itself is fully bounds-checked
(its checked-access variant always succeeds and agrees), and the walk
returns normally on non-JPEG inputs and on streams of well-formed segments;
only the walk's slice of an over-declared segment length can panic. -/
theorem claim_C10 :
    (∀ seg : List Nat, removeGPSChecked seg = some (removeGPSFromExif seg)) ∧
    (∀ data : List Nat, data.length < 2 ∨ byteAt data 0 ≠ 0xFF ∨ byteAt data 1 ≠ 0xD8 →
      (stripGPSFromJPEG data).isSome = true) ∧
    (∀ pre seg tail : List Nat, plainSegs pre = true → exifApp1Header seg = true →
      tailTerminal tail = true →
      (stripGPSFromJPEG (0xFF :: 0xD8 :: (pre ++ (seg ++ tail)))).isSome = true) := by
  refine ⟨removeGPSChecked_eq, ?_, ?_⟩
  · intro data h
    rw [stripGPSFromJPEG, if_pos h]
    rfl
  · intro pre seg tail hpre hseg htail
    rw [stripGPS_decomp pre seg tail hpre hseg htail]
    rfl

/-- Witness for claim C10: a non-JPEG input and the concrete well-formed
stream. -/
theorem claim_C10_witness :
    (stripGPSFromJPEG [0, 1, 2]).isSome = true ∧
    (stripGPSFromJPEG (0xFF :: 0xD8 :: (preW ++ (segW ++ tailW)))).isSome = true :=
  ⟨claim_C10.2.1 [0, 1, 2] (by decide),
   claim_C10.2.2 preW segW tailW (by decide) (by decide) (by decide)⟩
